import Mathlib

set_option maxHeartbeats 1000000

/-! Verification of the feature-engineering core of the crypto-prediction
repository: a shallow embedding of `src/features/technical_indicators.py`
and `src/features/feature_engineer.py`.

A pandas numeric column is modelled as `List (Option ℚ)`: `none` is NaN and
`some q` a finite float, floats idealised as rationals.  The floating-point
square root (needed only by the Bollinger standard deviation, whose exact
value no statement below depends on) is abstracted as a parameter
`sqrtFn : ℚ → ℚ`; every theorem about it quantifies over that parameter. -/

abbrev Series := List (Option ℚ)

/-- NaN-propagating binary operation (pandas aligned arithmetic). -/
def opt2 (f : ℚ → ℚ → ℚ) : Option ℚ → Option ℚ → Option ℚ
  | some a, some b => some (f a b)
  | _, _ => none

/-- Aligned elementwise arithmetic on two equally long columns. -/
def zipOpt2 (f : ℚ → ℚ → ℚ) (a b : Series) : Series := List.zipWith (opt2 f) a b

/-- The trailing window `input[max(0,i+1-w)..i]` seen by `rolling(window=w)`
at position `i`. -/
def window (xs : Series) (w i : Nat) : Series := (xs.take (i+1)).drop (i+1-w)

/-- The non-NaN entries of a column. -/
def someVals (l : Series) : List ℚ := l.filterMap id

/-- Mean of the non-NaN entries (`rolling(...).mean()` with `min_periods=1`
aggregates): NaN exactly when the window holds no observation. -/
def meanOpt (l : Series) : Option ℚ :=
  if someVals l = [] then none else some ((someVals l).sum / (someVals l).length)

/-- `Series.rolling(window=w, min_periods=1).mean()`. -/
def rollingMean (xs : Series) (w : Nat) : Series :=
  (List.range xs.length).map (fun i => meanOpt (window xs w i))

/-- Sample variance (ddof = 1) of the non-NaN entries: NaN when fewer than
two observations are present, as in `rolling(...).std()` with
`min_periods=1`. -/
def varSampOpt (l : Series) : Option ℚ :=
  if (someVals l).length ≤ 1 then none
  else some
    ((((someVals l).map (fun x => (x - (someVals l).sum / (someVals l).length)^2)).sum) /
      (((someVals l).length : ℚ) - 1))

/-- The rolling sample variance underlying `rolling(w, min_periods=1).std()`. -/
def rollingVarSamp (xs : Series) (w : Nat) : Series :=
  (List.range xs.length).map (fun i => varSampOpt (window xs w i))

/-- `Series.rolling(w, min_periods=1).std()`: square root of the rolling
sample variance, `sqrtFn` standing for the floating-point square root. -/
def rollingStd (sqrtFn : ℚ → ℚ) (xs : Series) (w : Nat) : Series :=
  (rollingVarSamp xs w).map (Option.map sqrtFn)

/-- `Series.diff(periods=p)`: `x[i] - x[i-p]`, NaN for `i < p` and on NaN
operands. -/
def diffP (xs : Series) (p : Nat) : Series :=
  (List.range xs.length).map (fun i =>
    if i < p then none else opt2 (fun a b => a - b) (xs.getD i none) (xs.getD (i-p) none))

/-- `Series.pct_change(periods=p)`: `x[i]/x[i-p] - 1`. -/
def pctChange (xs : Series) (p : Nat) : Series :=
  (List.range xs.length).map (fun i =>
    if i < p then none else opt2 (fun a b => a / b - 1) (xs.getD i none) (xs.getD (i-p) none))

/-- `Series.shift(k)`: `k` leading NaNs followed by the source values. -/
def shiftList (xs : Series) (k : Nat) : Series :=
  (List.replicate k none ++ xs).take xs.length

/-- Forward fill, carrying the most recent non-NaN value (first argument). -/
def ffillAux : Option ℚ → Series → Series
  | _, [] => []
  | _, some v :: rest => some v :: ffillAux (some v) rest
  | last, none :: rest => last :: ffillAux last rest

/-- `Series.ffill()`. -/
def ffill (l : Series) : Series := ffillAux none l

/-- `Series.fillna(c)`. -/
def fillna (c : ℚ) (l : Series) : Series := l.map (fun o => some (o.getD c))

/-- One pass of pandas `ewm(adjust=False, ignore_na=False).mean()`: the state
is the current average (none before the first observation) and the
accumulated weight of the old average, which decays by `1-α` every row and
resets to 1 at each observation. -/
def ewmAux (α : ℚ) : Option ℚ → ℚ → Series → Series
  | _, _, [] => []
  | none, w, none :: rest => none :: ewmAux α none w rest
  | none, _, some v :: rest => some v :: ewmAux α (some v) 1 rest
  | some a, w, none :: rest => some a :: ewmAux α (some a) (w * (1 - α)) rest
  | some a, w, some v :: rest =>
      let na := ((w * (1 - α)) * a + α * v) / ((w * (1 - α)) + α)
      some na :: ewmAux α (some na) 1 rest

/-- `Series.ewm(span=s, adjust=False).mean()` with `α = 2/(s+1)`. -/
def ewmMean (xs : Series) (span : Nat) : Series := ewmAux (2 / ((span : ℚ) + 1)) none 1 xs

/-! ## Indicator library (`technical_indicators.py`)

The dataframe/column indirection of the Python functions is collapsed: each
function takes the selected column directly. -/

/-- `calculate_sma(df, column, window)`. -/
def calculate_sma (xs : Series) (w : Nat) : Series := rollingMean xs w

/-- `calculate_ema(df, column, span)`. -/
def calculate_ema (xs : Series) (span : Nat) : Series := ewmMean xs span

/-- `delta.where(delta > 0, 0)`: NaN comparisons are False, so NaN ↦ 0. -/
def whereGain : Option ℚ → Option ℚ
  | some v => if 0 < v then some v else some 0
  | none => some 0

/-- `(-delta.where(delta < 0, 0))`. -/
def whereLoss : Option ℚ → Option ℚ
  | some v => if v < 0 then some (-v) else some 0
  | none => some 0

/-- The rolling mean of gains inside `calculate_rsi`. -/
def rsiGain (xs : Series) (period : Nat) : Series :=
  rollingMean ((diffP xs 1).map whereGain) period

/-- The rolling mean of losses inside `calculate_rsi`. -/
def rsiLoss (xs : Series) (period : Nat) : Series :=
  rollingMean ((diffP xs 1).map whereLoss) period

/-- `calculate_rsi`: `rs = gain / loss.replace(0, nan)`;
`rsi = 100 - 100/(1+rs)`; `rsi.fillna(50)`. -/
def calculate_rsi (xs : Series) (period : Nat) : Series :=
  fillna 50
    ((zipOpt2 (fun a b => a / b) (rsiGain xs period)
        ((rsiLoss xs period).map (fun o => if o = some 0 then none else o))).map
      (Option.map (fun r => 100 - 100 / (1 + r))))

/-- Result columns of `calculate_macd`. -/
structure MacdResult where
  macd : Series
  macd_signal : Series
  macd_histogram : Series

/-- `calculate_macd(df, column, fast, slow, signal)`. -/
def calculate_macd (xs : Series) (fast slow signal : Nat) : MacdResult :=
  let macd_line := zipOpt2 (fun a b => a - b) (calculate_ema xs fast) (calculate_ema xs slow)
  let signal_line := ewmMean macd_line signal
  { macd := macd_line
    macd_signal := signal_line
    macd_histogram := zipOpt2 (fun a b => a - b) macd_line signal_line }

/-- Result columns of `calculate_bollinger_bands`. -/
structure BollingerResult where
  bb_upper : Series
  bb_middle : Series
  bb_lower : Series
  bb_width : Series

/-- `calculate_bollinger_bands(df, column, window, num_std)`. -/
def calculate_bollinger_bands (sqrtFn : ℚ → ℚ) (xs : Series) (w : Nat) (num_std : ℚ) :
    BollingerResult :=
  let middle := calculate_sma xs w
  let sdk := (rollingStd sqrtFn xs w).map (Option.map (fun s => s * num_std))
  let upper := zipOpt2 (fun a b => a + b) middle sdk
  let lower := zipOpt2 (fun a b => a - b) middle sdk
  { bb_upper := upper
    bb_middle := middle
    bb_lower := lower
    bb_width := zipOpt2 (fun a b => a - b) upper lower }

/-- `calculate_price_changes(df, column, periods)`, as named columns. -/
def calculate_price_changes (xs : Series) (periods : List Nat) : List (String × Series) :=
  periods.map (fun p =>
    ("price_change_" ++ toString p ++ "d", (pctChange xs p).map (Option.map (fun q => q * 100))))

/-- `o > c` with pandas NaN semantics (NaN compares False). -/
def optGtC (o : Option ℚ) (c : ℚ) : Bool := match o with | some v => decide (c < v) | none => false

/-- `o ≤ c` with pandas NaN semantics (NaN compares False). -/
def optLeC (o : Option ℚ) (c : ℚ) : Bool := match o with | some v => decide (v ≤ c) | none => false

/-- `calculate_volume_indicators(df, volume_col)`, as named columns. -/
def calculate_volume_indicators (vol : Series) : List (String × Series) :=
  let ma7 := rollingMean vol 7
  let ratio := zipOpt2 (fun a b => a / b) vol ma7
  [("volume_ma_7", ma7),
   ("volume_ma_30", rollingMean vol 30),
   ("volume_ratio", ratio),
   ("volume_change_1d", (pctChange vol 1).map (Option.map (fun q => q * 100))),
   ("volume_spike", ratio.map (fun o => some (if optGtC o 2 then (1:ℚ) else 0)))]

/-! ## Calendar model

`pd.to_datetime` values are modelled as already-parsed timestamps; only the
components the temporal stage extracts are kept. -/

/-- A parsed timestamp (the components used by the pipeline). -/
structure Timestamp where
  year : Int
  month : Nat
  day : Nat
  hour : Nat
deriving DecidableEq, Repr, Inhabited

/-- A calendar date, as produced by `.dt.date`. -/
structure Date where
  y : Int
  m : Nat
  d : Nat
deriving DecidableEq, Repr

/-- `.dt.date`: truncate a timestamp to its calendar date. -/
def dateOf (t : Timestamp) : Date := ⟨t.year, t.month, t.day⟩

/-- Chronological order on calendar dates (lexicographic). -/
def dateLe (a b : Date) : Bool :=
  a.y < b.y || (a.y = b.y && (a.m < b.m || (a.m = b.m && a.d ≤ b.d)))

/-- Gregorian leap year. -/
def isLeap (y : Int) : Bool := (y % 4 == 0 && y % 100 != 0) || y % 400 == 0

/-- Number of days of a month, for `.dt.is_month_end`. -/
def daysInMonth (y : Int) (m : Nat) : Nat :=
  if m = 2 then (if isLeap y then 29 else 28)
  else if m = 4 ∨ m = 6 ∨ m = 9 ∨ m = 11 then 30 else 31

/-- Day count since 1970-01-01 (civil-calendar algorithm), used only to
derive the day of the week. -/
def daysFromCivil (y : Int) (m d : Nat) : Int :=
  let y2 : Int := if m ≤ 2 then y - 1 else y
  let era : Int := (if 0 ≤ y2 then y2 else y2 - 399) / 400
  let yoe : Int := y2 - era * 400
  let mp : Int := ((m : Int) + 9) % 12
  let doy : Int := (153 * mp + 2) / 5 + (d : Int) - 1
  let doe : Int := yoe * 365 + yoe / 4 - yoe / 100 + doy
  era * 146097 + doe - 719468

/-- `.dt.dayofweek`: Monday = 0 (1970-01-01 was a Thursday). -/
def dayOfWeekMon0 (t : Timestamp) : Nat :=
  ((daysFromCivil t.year t.month t.day + 3) % 7).toNat

/-- `.dt.quarter` for a month in 1..12. -/
def quarterOf (m : Nat) : Nat := (m + 2) / 3

/-! ## Table model

A dataframe is an ordered list of rows represented column-wise: the parsed
`timestamp` column plus the named numeric columns, all of the same length.
Row order is positional, as in the source. -/

/-- A single-asset dataframe: parsed timestamps plus named numeric columns. -/
structure Table where
  ts : List Timestamp
  cols : List (String × Series)
deriving Repr

/-- `n in df.columns`. -/
def Table.hasCol (t : Table) (n : String) : Bool := t.cols.any (fun c => c.1 == n)

/-- `df[n]` (first matching column). -/
def Table.getCol (t : Table) (n : String) : Option Series :=
  (t.cols.find? (fun c => c.1 == n)).map Prod.snd

/-- `df[n]`, defaulting to the empty column when absent (the source raises
there; every theorem below assumes the required columns are present). -/
def Table.colD (t : Table) (n : String) : Series := (t.getCol n).getD []

/-- `df[n] = v`: overwrite every column of that name if present, else
append a new column. -/
def Table.setCol (t : Table) (n : String) (v : Series) : Table :=
  if t.hasCol n then ⟨t.ts, t.cols.map (fun c => if c.1 == n then (n, v) else c)⟩
  else ⟨t.ts, t.cols ++ [(n, v)]⟩

/-- `pd.concat([t, extra], axis=1)` (duplicate names are kept, as in pandas). -/
def Table.appendCols (t : Table) (l : List (String × Series)) : Table := ⟨t.ts, t.cols ++ l⟩

/-- Well-formedness: every column is as long as the row index. -/
def Table.Wf (t : Table) : Prop := ∀ c ∈ t.cols, c.2.length = t.ts.length

/-- Keep the entries of `l` whose mask bit is true, preserving order. -/
def filterByMask {α : Type} (mask : List Bool) (l : List α) : List α :=
  (l.zip mask).filterMap (fun p => if p.2 then some p.1 else none)

/-- The row mask of `df.dropna(subset=subset)`: keep row `i` iff every subset
column is non-NaN there. -/
def Table.dropnaMask (t : Table) (subset : List String) : List Bool :=
  (List.range t.ts.length).map (fun i => subset.all (fun n => ((t.colD n).getD i none).isSome))

/-- `df.dropna(subset=subset)`: drop every row where some subset column is
NaN, keeping the remaining rows in order. -/
def Table.dropnaRows (t : Table) (subset : List String) : Table :=
  ⟨filterByMask (t.dropnaMask subset) t.ts,
   t.cols.map (fun c => (c.1, filterByMask (t.dropnaMask subset) c.2))⟩

/-- A fear-and-greed table: one (timestamp, value) row per entry. -/
abbrev FGTable := List (Timestamp × ℚ)

/-- `sma_7 > sma_30` as a 0/1 column (NaN compares False). -/
def gtFlag (a b : Option ℚ) : Option ℚ :=
  match a, b with
  | some x, some y => some (if y < x then 1 else 0)
  | _, _ => some 0

namespace CryptoFeatureEngineer

/-- `add_technical_indicators`.  The price and volume columns are read once
up front: the assignments of the source only ever touch the freshly
generated indicator names, so under the input contract (no input column is
named like a generated feature) the mutated dataframe agrees with `df` on
`price_col` and `volume_col` throughout. -/
def add_technical_indicators (sqrtFn : ℚ → ℚ) (df : Table)
    (price_col : String := "price_usd") (volume_col : String := "volume_24h_usd") : Table :=
  let price := df.colD price_col
  let d1 := df.setCol "sma_7" (calculate_sma price 7)
  let d2 := d1.setCol "sma_30" (calculate_sma price 30)
  let d3 := d2.setCol "ema_12" (calculate_ema price 12)
  let d4 := d3.setCol "ema_26" (calculate_ema price 26)
  let d5 := d4.setCol "rsi_14" (calculate_rsi price 14)
  let m := calculate_macd price 12 26 9
  let d6 := d5.appendCols
    [("macd", m.macd), ("macd_signal", m.macd_signal), ("macd_histogram", m.macd_histogram)]
  let b := calculate_bollinger_bands sqrtFn price 20 2
  let d7 := d6.appendCols
    [("bb_upper", b.bb_upper), ("bb_middle", b.bb_middle),
     ("bb_lower", b.bb_lower), ("bb_width", b.bb_width)]
  let d8 := d7.appendCols (calculate_price_changes price [1, 7, 30])
  let d9 := if df.hasCol volume_col
    then d8.appendCols (calculate_volume_indicators (df.colD volume_col)) else d8
  let d10 := d9.setCol "price_to_sma7_ratio" (zipOpt2 (fun a b => a / b) price (calculate_sma price 7))
  let d11 := d10.setCol "price_to_sma30_ratio" (zipOpt2 (fun a b => a / b) price (calculate_sma price 30))
  d11.setCol "sma_crossover" (List.zipWith gtFlag (calculate_sma price 7) (calculate_sma price 30))

/-- `add_temporal_features`: pure functions of the (already parsed)
timestamp column. -/
def add_temporal_features (df : Table) : Table :=
  let t := df.ts
  let d1 := df.setCol "year" (t.map (fun x => some ((x.year : ℚ))))
  let d2 := d1.setCol "month" (t.map (fun x => some ((x.month : ℚ))))
  let d3 := d2.setCol "day" (t.map (fun x => some ((x.day : ℚ))))
  let d4 := d3.setCol "day_of_week" (t.map (fun x => some ((dayOfWeekMon0 x : ℚ))))
  let d5 := d4.setCol "hour" (t.map (fun x => some ((x.hour : ℚ))))
  let d6 := d5.setCol "quarter" (t.map (fun x => some ((quarterOf x.month : ℚ))))
  let d7 := d6.setCol "is_weekend" (t.map (fun x => some (if 5 ≤ dayOfWeekMon0 x then (1:ℚ) else 0)))
  let d8 := d7.setCol "is_month_start" (t.map (fun x => some (if x.day = 1 then (1:ℚ) else 0)))
  d8.setCol "is_month_end"
    (t.map (fun x => some (if x.day = daysInMonth x.year x.month then (1:ℚ) else 0)))

/-- The exact-date left-join column of `add_sentiment_features`: for each
price-row date, the value of the first sentiment row with that calendar
date (`merge(on='date', how='left')`; under the sentiment contract the
dates are unique, so "first" is "the"). -/
def sentimentMerged (dates : List Date) (fg : FGTable) : Series :=
  dates.map (fun d => (fg.find? (fun r => dateOf r.1 == d)).map Prod.snd)

/-- `add_sentiment_features`: left-join the sentiment value on calendar
date, forward-fill it, then derive rolling stats and the bucket flags.  The
intermediate `date` helper column that the source adds and drops again is
not materialised. -/
def add_sentiment_features (df_price : Table) (df_fear_greed : FGTable) : Table :=
  let dates := df_price.ts.map dateOf
  let fgi := ffill (sentimentMerged dates df_fear_greed)
  let d1 := df_price.setCol "fear_greed_index" fgi
  let d2 := d1.setCol "fg_ma_7" (rollingMean fgi 7)
  let d3 := d2.setCol "fg_ma_30" (rollingMean fgi 30)
  let d4 := d3.setCol "fg_change_7d" (diffP fgi 7)
  let d5 := d4.setCol "is_extreme_fear" (fgi.map (fun o => some (if optLeC o 25 then (1:ℚ) else 0)))
  let d6 := d5.setCol "is_fear"
    (fgi.map (fun o => some (if optGtC o 25 && optLeC o 45 then (1:ℚ) else 0)))
  let d7 := d6.setCol "is_neutral"
    (fgi.map (fun o => some (if optGtC o 45 && optLeC o 55 then (1:ℚ) else 0)))
  let d8 := d7.setCol "is_greed"
    (fgi.map (fun o => some (if optGtC o 55 && optLeC o 75 then (1:ℚ) else 0)))
  d8.setCol "is_extreme_greed" (fgi.map (fun o => some (if optGtC o 75 then (1:ℚ) else 0)))

/-- The generated name `f'{col}_lag_{lag}d'`. -/
def lagColName (col : String) (lag : Nat) : String := col ++ "_lag_" ++ toString lag ++ "d"

/-- `add_lag_features`: for every configured column present in the table and
every configured lag, append the shifted column. -/
def add_lag_features (df : Table) (columns : List String := ["price_usd"])
    (lags : List Nat := [1, 7, 30]) : Table :=
  columns.foldl (fun t col =>
    if t.hasCol col then
      lags.foldl (fun t2 lag => t2.setCol (lagColName col lag) (shiftList (t2.colD col) lag)) t
    else t) df

/-- The four stages of `create_all_features` in their fixed order, named so
the final trim can be stated about their composite. -/
def pipelineStages (sqrtFn : ℚ → ℚ) (df_price : Table)
    (df_fear_greed : Option FGTable) (add_lags : Bool) : Table :=
  let df1 := add_technical_indicators sqrtFn df_price
  let df2 := add_temporal_features df1
  let df3 := match df_fear_greed with
    | some fg => add_sentiment_features df2 fg
    | none => df2
  if add_lags then add_lag_features df3 ["price_usd", "volume_24h_usd"] [1, 7, 30]
  else df3

/-- `create_all_features`: the four stages in order, then the final trim
`df.dropna(subset=['price_usd', 'sma_7', 'rsi_14'])`. -/
def create_all_features (sqrtFn : ℚ → ℚ) (df_price : Table)
    (df_fear_greed : Option FGTable := none) (add_lags : Bool := true) : Table :=
  (pipelineStages sqrtFn df_price df_fear_greed add_lags).dropnaRows
    ["price_usd", "sma_7", "rsi_14"]

end CryptoFeatureEngineer

open CryptoFeatureEngineer in
/-- One column's inner lag loop, named for the proofs below; it is exactly
the inner `for lag in lags` loop of `add_lag_features`. -/
def lagFold (lags : List Nat) (col : String) (t : Table) : Table :=
  lags.foldl (fun t2 lag => t2.setCol (lagColName col lag) (shiftList (t2.colD col) lag)) t

/-- Modelled from the spec claim wording, for the refinement comparison:
the value of the sentiment row whose date is the latest among those at or
before `d` (missing when no sentiment date is at or before `d`). -/
def mostRecentValueAtOrBefore (fg : FGTable) (d : Date) : Option ℚ :=
  ((fg.filter (fun r => dateLe (dateOf r.1) d)).foldl
    (fun acc r => match acc with
      | none => some r
      | some best => if dateLe (dateOf best.1) (dateOf r.1) then some r else some best)
    none).map Prod.snd

/-- The names generated by the temporal stage. -/
def temporalColNames : List String :=
  ["year", "month", "day", "day_of_week", "hour", "quarter", "is_weekend",
   "is_month_start", "is_month_end"]

/-- The columns appended by the temporal stage. -/
def temporalBlock (t : List Timestamp) : List (String × Series) :=
  [("year", t.map (fun x => some ((x.year : ℚ)))),
   ("month", t.map (fun x => some ((x.month : ℚ)))),
   ("day", t.map (fun x => some ((x.day : ℚ)))),
   ("day_of_week", t.map (fun x => some ((dayOfWeekMon0 x : ℚ)))),
   ("hour", t.map (fun x => some ((x.hour : ℚ)))),
   ("quarter", t.map (fun x => some ((quarterOf x.month : ℚ)))),
   ("is_weekend", t.map (fun x => some (if 5 ≤ dayOfWeekMon0 x then (1:ℚ) else 0))),
   ("is_month_start", t.map (fun x => some (if x.day = 1 then (1:ℚ) else 0))),
   ("is_month_end",
     t.map (fun x => some (if x.day = daysInMonth x.year x.month then (1:ℚ) else 0)))]

/-- The names generated by the technical stage (the volume ones are only
produced when the volume column is present). -/
def techColNames : List String :=
  ["sma_7", "sma_30", "ema_12", "ema_26", "rsi_14", "macd", "macd_signal", "macd_histogram",
   "bb_upper", "bb_middle", "bb_lower", "bb_width", "price_change_1d", "price_change_7d",
   "price_change_30d", "volume_ma_7", "volume_ma_30", "volume_ratio", "volume_change_1d",
   "volume_spike", "price_to_sma7_ratio", "price_to_sma30_ratio", "sma_crossover"]

/-- The columns appended by the technical stage. -/
def techBlock (sqrtFn : ℚ → ℚ) (price vol : Series) (hasVol : Bool) :
    List (String × Series) :=
  [("sma_7", calculate_sma price 7), ("sma_30", calculate_sma price 30),
   ("ema_12", calculate_ema price 12), ("ema_26", calculate_ema price 26),
   ("rsi_14", calculate_rsi price 14),
   ("macd", (calculate_macd price 12 26 9).macd),
   ("macd_signal", (calculate_macd price 12 26 9).macd_signal),
   ("macd_histogram", (calculate_macd price 12 26 9).macd_histogram),
   ("bb_upper", (calculate_bollinger_bands sqrtFn price 20 2).bb_upper),
   ("bb_middle", (calculate_bollinger_bands sqrtFn price 20 2).bb_middle),
   ("bb_lower", (calculate_bollinger_bands sqrtFn price 20 2).bb_lower),
   ("bb_width", (calculate_bollinger_bands sqrtFn price 20 2).bb_width)]
  ++ calculate_price_changes price [1, 7, 30]
  ++ (if hasVol then calculate_volume_indicators vol else [])
  ++ [("price_to_sma7_ratio", zipOpt2 (fun a b => a / b) price (calculate_sma price 7)),
      ("price_to_sma30_ratio", zipOpt2 (fun a b => a / b) price (calculate_sma price 30)),
      ("sma_crossover", List.zipWith gtFlag (calculate_sma price 7) (calculate_sma price 30))]

/-- The names generated by the sentiment stage. -/
def sentColNames : List String :=
  ["fear_greed_index", "fg_ma_7", "fg_ma_30", "fg_change_7d", "is_extreme_fear", "is_fear",
   "is_neutral", "is_greed", "is_extreme_greed"]

/-- The columns appended by the sentiment stage, as functions of the
forward-filled joined sentiment column. -/
def sentBlock (fgi : Series) : List (String × Series) :=
  [("fear_greed_index", fgi),
   ("fg_ma_7", rollingMean fgi 7),
   ("fg_ma_30", rollingMean fgi 30),
   ("fg_change_7d", diffP fgi 7),
   ("is_extreme_fear", fgi.map (fun o => some (if optLeC o 25 then (1:ℚ) else 0))),
   ("is_fear", fgi.map (fun o => some (if optGtC o 25 && optLeC o 45 then (1:ℚ) else 0))),
   ("is_neutral", fgi.map (fun o => some (if optGtC o 45 && optLeC o 55 then (1:ℚ) else 0))),
   ("is_greed", fgi.map (fun o => some (if optGtC o 55 && optLeC o 75 then (1:ℚ) else 0))),
   ("is_extreme_greed", fgi.map (fun o => some (if optGtC o 75 then (1:ℚ) else 0)))]

/-- The C3 invariant: same rows in the same order, pre-existing columns
unchanged and still present, at least one new column, and every output
column as long as the row index. -/
def StrictlyExtends (t t2 : Table) : Prop :=
  t2.ts = t.ts ∧
  (∀ n, t.hasCol n = true → t2.getCol n = t.getCol n) ∧
  (∀ n, t.hasCol n = true → t2.hasCol n = true) ∧
  (∃ n, t2.hasCol n = true ∧ t.hasCol n = false) ∧
  (∀ c ∈ t2.cols, c.2.length = t2.ts.length)

/-- A two-row sample table satisfying every stage's input contract. -/
def sampleTable : Table :=
  Table.mk [⟨2024, 1, 1, 0⟩, ⟨2024, 1, 2, 0⟩]
    [("price_usd", [some 1, some 2]), ("volume_24h_usd", [some 5, some 6])]

/-- A one-row sample sentiment table. -/
def sampleFG : FGTable := [(⟨2024, 1, 1, 0⟩, 50)]

/-- The ten-point daily price series of end-to-end scenario 1 (no volume
column). -/
def scenarioTable : Table :=
  Table.mk
    [⟨2024, 1, 1, 0⟩, ⟨2024, 1, 2, 0⟩, ⟨2024, 1, 3, 0⟩, ⟨2024, 1, 4, 0⟩, ⟨2024, 1, 5, 0⟩,
     ⟨2024, 1, 6, 0⟩, ⟨2024, 1, 7, 0⟩, ⟨2024, 1, 8, 0⟩, ⟨2024, 1, 9, 0⟩, ⟨2024, 1, 10, 0⟩]
    [("price_usd",
      [some 100, some 102, some 104, some 103, some 105, some 107, some 108, some 110,
       some 109, some 111])]

open CryptoFeatureEngineer

/-! ## Generic access lemmas -/

theorem getD_map_range {α : Type} (n : ℕ) (f : ℕ → α) (i : ℕ) (d : α) :
    ((List.range n).map f).getD i d = if i < n then f i else d := by
  by_cases h : i < n
  · rw [List.getD_eq_getElem _ _ (by simpa using h)]
    simp [List.getElem_map, List.getElem_range, h]
  · rw [List.getD_eq_default _ _ (by simpa using Nat.le_of_not_lt h), if_neg h]

theorem getD_map_of_lt {α β : Type} (f : α → β) (l : List α) {i : ℕ} (h : i < l.length)
    (d : β) (d2 : α) : (l.map f).getD i d = f (l.getD i d2) := by
  rw [List.getD_eq_getElem _ _ (by simpa using h), List.getD_eq_getElem _ _ h]
  simp [List.getElem_map]

theorem getD_zipWith_of_lt {α β γ : Type} (f : α → β → γ) (l1 : List α) (l2 : List β) {i : ℕ}
    (h1 : i < l1.length) (h2 : i < l2.length) (d : γ) (d1 : α) (d2 : β) :
    (List.zipWith f l1 l2).getD i d = f (l1.getD i d1) (l2.getD i d2) := by
  rw [List.getD_eq_getElem _ _ (by simp [List.length_zipWith]; omega),
    List.getD_eq_getElem _ _ h1, List.getD_eq_getElem _ _ h2]
  exact List.getElem_zipWith

/-! ## Lengths -/

theorem length_rollingMean (xs : Series) (w : ℕ) : (rollingMean xs w).length = xs.length := by
  simp [rollingMean]

theorem length_rollingVarSamp (xs : Series) (w : ℕ) :
    (rollingVarSamp xs w).length = xs.length := by
  simp [rollingVarSamp]

theorem length_diffP (xs : Series) (p : ℕ) : (diffP xs p).length = xs.length := by
  simp [diffP]

theorem length_pctChange (xs : Series) (p : ℕ) : (pctChange xs p).length = xs.length := by
  simp [pctChange]

theorem length_fillna (c : ℚ) (l : Series) : (fillna c l).length = l.length := by
  simp [fillna]

theorem length_shiftList (xs : Series) (k : ℕ) : (shiftList xs k).length = xs.length := by
  simp [shiftList]

theorem length_ewmAux (α : ℚ) (acc : Option ℚ) (w : ℚ) (l : Series) :
    (ewmAux α acc w l).length = l.length := by
  induction l generalizing acc w with
  | nil => cases acc <;> simp [ewmAux]
  | cons x rest ih =>
      cases acc <;> cases x <;> simp [ewmAux] <;> exact ih _ _

theorem length_ewmMean (xs : Series) (s : ℕ) : (ewmMean xs s).length = xs.length :=
  length_ewmAux _ _ _ _

theorem length_ffillAux (acc : Option ℚ) (l : Series) : (ffillAux acc l).length = l.length := by
  induction l generalizing acc with
  | nil => simp [ffillAux]
  | cons x rest ih => cases x <;> simp [ffillAux] <;> exact ih _

theorem length_ffill (l : Series) : (ffill l).length = l.length := length_ffillAux _ _

theorem length_calculate_rsi (xs : Series) (p : ℕ) :
    (calculate_rsi xs p).length = xs.length := by
  simp [calculate_rsi, length_fillna, zipOpt2, List.length_zipWith, rsiGain, rsiLoss,
    length_rollingMean, length_diffP]

/-! ## Windows and means -/

theorem window_sublist (xs : Series) (w i : ℕ) : (window xs w i).Sublist xs :=
  (List.drop_sublist _ _).trans (List.take_sublist _ _)

theorem window_length (xs : Series) (w : ℕ) {i : ℕ} (hi : i < xs.length) :
    (window xs w i).length = min w (i+1) := by
  simp only [window, List.length_drop, List.length_take]
  omega

theorem rollingMean_getD (xs : Series) (w : ℕ) {i : ℕ} (hi : i < xs.length) :
    (rollingMean xs w).getD i none = meanOpt (window xs w i) := by
  simp [rollingMean, getD_map_range, hi]

theorem rollingVarSamp_getD (xs : Series) (w : ℕ) {i : ℕ} (hi : i < xs.length) :
    (rollingVarSamp xs w).getD i none = varSampOpt (window xs w i) := by
  simp [rollingVarSamp, getD_map_range, hi]

theorem mem_someVals {l : Series} {a : ℚ} : a ∈ someVals l ↔ some a ∈ l := by
  simp [someVals, List.mem_filterMap]

theorem someVals_all_some {l : Series} (h : ∀ x ∈ l, x ≠ none) :
    someVals l = l.map (fun o => o.getD 0) := by
  induction l with
  | nil => rfl
  | cons x rest ih =>
      cases x with
      | none => exact absurd rfl (h none (by simp))
      | some v =>
          simp only [someVals, List.filterMap_cons, id, List.map_cons, Option.getD_some]
          exact congrArg (v :: ·) (ih (fun x hx => h x (by simp [hx])))

theorem length_someVals_all {l : Series} (h : ∀ x ∈ l, x ≠ none) :
    (someVals l).length = l.length := by
  rw [someVals_all_some h, List.length_map]

theorem meanOpt_all_some {l : Series} (h : ∀ x ∈ l, x ≠ none) (hne : l ≠ []) :
    meanOpt l = some ((l.map (fun o => o.getD 0)).sum / (l.length : ℚ)) := by
  have hv : someVals l = l.map (fun o => o.getD 0) := someVals_all_some h
  have hlen : (someVals l).length = l.length := length_someVals_all h
  have hnz : someVals l ≠ [] := by
    intro hc
    exact hne (List.length_eq_zero.mp (by rw [← hlen, hc]; rfl))
  rw [meanOpt, if_neg hnz, hv, List.length_map]

theorem meanOpt_nonneg_some {l : Series} (hall : ∀ x ∈ l, ∃ v, x = some v ∧ 0 ≤ v)
    (hne : l ≠ []) : ∃ m, meanOpt l = some m ∧ 0 ≤ m := by
  have hns : ∀ x ∈ l, x ≠ none := by
    intro x hx
    obtain ⟨v, hv, _⟩ := hall x hx
    simp [hv]
  rw [meanOpt_all_some hns hne]
  refine ⟨_, rfl, div_nonneg (List.sum_nonneg ?_) (by positivity)⟩
  intro q hq
  obtain ⟨o, ho, rfl⟩ := List.mem_map.mp hq
  obtain ⟨v, hv, h0⟩ := hall o ho
  simpa [hv] using h0

theorem rollingMean_nonneg_some (xs : Series) (w : ℕ) (hw : 1 ≤ w) {i : ℕ}
    (hi : i < xs.length) (hall : ∀ x ∈ xs, ∃ v, x = some v ∧ 0 ≤ v) :
    ∃ m, (rollingMean xs w).getD i none = some m ∧ 0 ≤ m := by
  rw [rollingMean_getD xs w hi]
  refine meanOpt_nonneg_some (fun x hx => hall x ((window_sublist xs w i).subset hx)) ?_
  intro hc
  have := window_length xs w hi
  rw [hc] at this
  simp at this
  omega

/-! ## RSI structure -/

theorem whereGain_spec (o : Option ℚ) : ∃ v, whereGain o = some v ∧ 0 ≤ v := by
  cases o with
  | none => exact ⟨0, rfl, le_refl 0⟩
  | some v =>
      by_cases h : 0 < v
      · exact ⟨v, by simp [whereGain, h], le_of_lt h⟩
      · exact ⟨0, by simp [whereGain, h], le_refl 0⟩

theorem whereLoss_spec (o : Option ℚ) : ∃ v, whereLoss o = some v ∧ 0 ≤ v := by
  cases o with
  | none => exact ⟨0, rfl, le_refl 0⟩
  | some v =>
      by_cases h : v < 0
      · exact ⟨-v, by simp [whereLoss, h], by linarith⟩
      · exact ⟨0, by simp [whereLoss, h], le_refl 0⟩

/-- Pointwise description of `calculate_rsi`: at every in-range position the
gain and loss rolling means are defined and nonnegative, and the output is
50 exactly on the zero-loss branch, otherwise `100 - 100/(1 + gain/loss)`. -/
theorem calculate_rsi_cases (xs : Series) (period : ℕ) (hp : 1 ≤ period) {i : ℕ}
    (hi : i < xs.length) :
    ∃ g l, (rsiGain xs period).getD i none = some g ∧
      (rsiLoss xs period).getD i none = some l ∧ 0 ≤ g ∧ 0 ≤ l ∧
      (calculate_rsi xs period).getD i none =
        some (if l = 0 then 50 else 100 - 100 / (1 + g / l)) := by
  have hgl : i < ((diffP xs 1).map whereGain).length := by
    simpa [List.length_map, length_diffP] using hi
  have hll : i < ((diffP xs 1).map whereLoss).length := by
    simpa [List.length_map, length_diffP] using hi
  obtain ⟨g, hg, hg0⟩ := rollingMean_nonneg_some ((diffP xs 1).map whereGain) period hp hgl
    (by
      intro x hx
      obtain ⟨o, _, rfl⟩ := List.mem_map.mp hx
      exact whereGain_spec o)
  obtain ⟨l, hl, hl0⟩ := rollingMean_nonneg_some ((diffP xs 1).map whereLoss) period hp hll
    (by
      intro x hx
      obtain ⟨o, _, rfl⟩ := List.mem_map.mp hx
      exact whereLoss_spec o)
  have hg2 : (rsiGain xs period).getD i none = some g := hg
  have hl2 : (rsiLoss xs period).getD i none = some l := hl
  refine ⟨g, l, hg2, hl2, hg0, hl0, ?_⟩
  have hgi : i < (rsiGain xs period).length := by
    simpa [rsiGain, length_rollingMean, List.length_map, length_diffP] using hi
  have hli : i < (rsiLoss xs period).length := by
    simpa [rsiLoss, length_rollingMean, List.length_map, length_diffP] using hi
  have hri : i < ((rsiLoss xs period).map (fun o => if o = some 0 then none else o)).length := by
    simpa [List.length_map] using hli
  have hzi : i < (zipOpt2 (fun a b => a / b) (rsiGain xs period)
      ((rsiLoss xs period).map (fun o => if o = some 0 then none else o))).length := by
    simp only [zipOpt2, List.length_zipWith]
    omega
  have hmi : i < ((zipOpt2 (fun a b => a / b) (rsiGain xs period)
      ((rsiLoss xs period).map (fun o => if o = some 0 then none else o))).map
        (Option.map (fun r => 100 - 100 / (1 + r)))).length := by
    simpa [List.length_map] using hzi
  rw [calculate_rsi, fillna, getD_map_of_lt _ _ hmi _ none,
    getD_map_of_lt _ _ hzi _ none, zipOpt2,
    getD_zipWith_of_lt _ _ _ hgi hri _ none none,
    getD_map_of_lt _ _ hli _ none, hg2, hl2]
  by_cases hl00 : l = 0
  · simp [hl00, opt2]
  · simp [hl00, opt2]

/-- Claim C2 states that a missing input value makes the gain or loss
series missing and the RSI output missing.  In the source the `where`
guard coerces NaN deltas to 0 and the trailing `fillna(50)` fills every
undefined ratio, so a missing input yields the number 50, never a missing
output: at the concrete input `[5, NaN]` the input at position 1 is
missing, yet the RSI output there is `some 50`, not `none`. -/
theorem claim_C2_counterexample :
    ([some (5:ℚ), none].getD 1 none = none) ∧
    (calculate_rsi [some (5:ℚ), none] 14).getD 1 none = some 50 := by
  constructor
  · rfl
  · norm_num [calculate_rsi, rsiGain, rsiLoss, diffP, rollingMean, meanOpt, someVals, window,
      fillna, zipOpt2, opt2, whereGain, whereLoss, List.range_succ, List.filterMap_cons]
    simp

/-- Claim C2 (amended): every position where the rolling mean loss is
exactly 0 yields the neutral value 50, and the output is never missing:
at any other position it is also a defined number (missing inputs are
coerced to gain/loss 0 by the where-guard, and the final fillna turns any
undefined ratio into 50). -/
theorem claim_C2_amended (xs : Series) (period : ℕ) (hp : 1 ≤ period) (i : ℕ)
    (hi : i < xs.length) :
    ((rsiLoss xs period).getD i none = some 0 →
      (calculate_rsi xs period).getD i none = some 50) ∧
    ∃ v, (calculate_rsi xs period).getD i none = some v := by
  obtain ⟨g, l, hg, hl, hg0, hl0, hout⟩ := calculate_rsi_cases xs period hp hi
  constructor
  · intro h0
    rw [hl] at h0
    have : l = 0 := by injection h0
    rw [hout, if_pos this]
  · exact ⟨_, hout⟩

/-- Witness for the amended C2 at the concrete input `[1, 2]`, position 1
(the hypotheses of the theorem hold there and the zero-loss branch fires). -/
theorem claim_C2_amended_witness :
    (1 ≤ 14 ∧ 1 < ([some (1:ℚ), some 2] : Series).length) ∧
    (((rsiLoss [some (1:ℚ), some 2] 14).getD 1 none = some 0 →
        (calculate_rsi [some (1:ℚ), some 2] 14).getD 1 none = some 50) ∧
      ∃ v, (calculate_rsi [some (1:ℚ), some 2] 14).getD 1 none = some v) :=
  ⟨⟨by decide, by decide⟩, claim_C2_amended [some 1, some 2] 14 (by decide) 1 (by decide)⟩

/-- Claim C4: the SMA output has the input's length, and on fully defined
input every position is the mean of the trailing shrinking window
`input[max(0,i-W+1)..i]` (here `i+1-w` is truncated subtraction), with no
error when the series is shorter than the window. -/
theorem claim_C4 (xs : Series) (w : ℕ) (hw : 1 ≤ w) :
    (calculate_sma xs w).length = xs.length ∧
    ∀ i, i < xs.length → (∀ x ∈ xs, x ≠ none) →
      (calculate_sma xs w).getD i none =
        some ((((xs.take (i+1)).drop (i+1-w)).map (fun o => o.getD 0)).sum /
          ((min w (i+1) : ℕ) : ℚ)) := by
  refine ⟨length_rollingMean xs w, fun i hi hall => ?_⟩
  rw [calculate_sma, rollingMean_getD xs w hi,
    meanOpt_all_some (fun x hx => hall x ((window_sublist xs w i).subset hx))
      (by
        intro hc
        have := window_length xs w hi
        rw [hc] at this
        simp at this
        omega)]
  rw [window_length xs w hi]
  rfl

/-- Witness for C4 at `[1, 2, 4]`, window 2, position 2: the trailing
window is `[2, 4]` and the mean is 3. -/
theorem claim_C4_witness :
    1 ≤ 2 ∧ (calculate_sma [some (1:ℚ), some 2, some 4] 2).length = 3 ∧
    (calculate_sma [some (1:ℚ), some 2, some 4] 2).getD 2 none = some 3 := by
  refine ⟨by decide, (claim_C4 [some (1:ℚ), some 2, some 4] 2 (by decide)).1, ?_⟩
  have h := (claim_C4 [some (1:ℚ), some 2, some 4] 2 (by decide)).2 2 (by decide) (by decide)
  rw [h]
  have hslice : (([some (1:ℚ), some 2, some 4].take 3).drop 1) = [some 2, some 4] := rfl
  rw [hslice]
  norm_num

/-! ## Constant input series -/

theorem rsi_loss_list_replicate (n : ℕ) (c : ℚ) :
    (diffP (List.replicate n (some c)) 1).map whereLoss = List.replicate n (some 0) := by
  apply List.ext_getElem
  · simp [length_diffP]
  · intro i h1 h2
    have hi : i < n := by simpa using h2
    rw [List.getElem_map]
    have hd : i < (List.range (List.replicate n (some c) : Series).length).length := by
      simpa [length_diffP] using hi
    rw [List.getElem_replicate]
    simp only [diffP, List.getElem_map, List.getElem_range]
    by_cases h0 : i < 1
    · simp [h0, whereLoss]
    · have e1 : (List.replicate n (some c) : Series)[i]? = some (some c) := by
        simp [List.getElem?_replicate, hi]
      have e2 : (List.replicate n (some c) : Series)[i-1]? = some (some c) := by
        rw [List.getElem?_replicate, if_pos (by omega)]
      simp [h0, List.getD_eq_getElem?_getD, e1, e2, opt2, whereLoss]

theorem meanOpt_replicate_zero (m : ℕ) (hm : 1 ≤ m) :
    meanOpt (List.replicate m (some (0:ℚ))) = some 0 := by
  have hv : someVals (List.replicate m (some (0:ℚ))) = List.replicate m 0 := by
    induction m with
    | zero => rfl
    | succ k ih => simpa [someVals, List.replicate_succ, List.filterMap_cons] using ih
  rw [meanOpt, hv]
  have hne : (List.replicate m (0:ℚ)) ≠ [] := by
    intro hc
    have := congrArg List.length hc
    simp at this
    omega
  rw [if_neg hne]
  simp [List.sum_replicate]

theorem rollingMean_replicate_zero (n w : ℕ) (hw : 1 ≤ w) {i : ℕ} (hi : i < n) :
    (rollingMean (List.replicate n (some (0:ℚ))) w).getD i none = some 0 := by
  have hi2 : i < (List.replicate n (some (0:ℚ)) : Series).length := by simpa using hi
  rw [rollingMean_getD _ w hi2]
  have hwin : window (List.replicate n (some (0:ℚ))) w i =
      List.replicate (min (i+1) n - (i+1-w)) (some 0) := by
    rw [window, List.take_replicate, List.drop_replicate]
  rw [hwin]
  apply meanOpt_replicate_zero
  omega

/-- Claim C6: the RSI output is always a defined value in [0, 100], and on a
constant input series it is 50 at every position. -/
theorem claim_C6 :
    (∀ (xs : Series) (period i : ℕ), 1 ≤ period → i < xs.length →
      ∃ v, (calculate_rsi xs period).getD i none = some v ∧ 0 ≤ v ∧ v ≤ 100) ∧
    (∀ (n : ℕ) (c : ℚ) (period i : ℕ), 1 ≤ period → i < n →
      (calculate_rsi (List.replicate n (some c)) period).getD i none = some 50) := by
  constructor
  · intro xs period i hp hi
    obtain ⟨g, l, hg, hl, hg0, hl0, hout⟩ := calculate_rsi_cases xs period hp hi
    by_cases hl00 : l = 0
    · exact ⟨50, by rw [hout, if_pos hl00], by norm_num, by norm_num⟩
    · have hlpos : 0 < l := lt_of_le_of_ne hl0 (Ne.symm hl00)
      have hr0 : 0 ≤ g / l := div_nonneg hg0 (le_of_lt hlpos)
      have h1 : (0:ℚ) < 1 + g / l := by linarith
      refine ⟨_, by rw [hout, if_neg hl00], ?_, ?_⟩
      · have : 100 / (1 + g / l) ≤ 100 := by
          rw [div_le_iff h1]
          nlinarith
        linarith
      · have : 0 < 100 / (1 + g / l) := div_pos (by norm_num) h1
        linarith
  · intro n c period i hp hi
    have hi2 : i < (List.replicate n (some c) : Series).length := by simpa using hi
    obtain ⟨g, l, hg, hl, hg0, hl0, hout⟩ := calculate_rsi_cases (List.replicate n (some c))
      period hp hi2
    have hl0' : (rsiLoss (List.replicate n (some c)) period).getD i none = some 0 := by
      show (rollingMean ((diffP (List.replicate n (some c)) 1).map whereLoss) period).getD i none
        = some 0
      rw [rsi_loss_list_replicate]
      exact rollingMean_replicate_zero n period hp hi
    rw [hl0'] at hl
    have hleq : l = 0 := by
      injection hl with h
      exact h.symm
    rw [hout, if_pos hleq]

/-- Witness for C6: bounds at the input `[1, 3]`, position 1, and the value
50 on the constant series of length 3, position 2. -/
theorem claim_C6_witness :
    (1 ≤ 14 ∧ 1 < ([some (1:ℚ), some 3] : Series).length ∧
      ∃ v, (calculate_rsi [some (1:ℚ), some 3] 14).getD 1 none = some v ∧ 0 ≤ v ∧ v ≤ 100) ∧
    (1 ≤ 14 ∧ 2 < 3 ∧
      (calculate_rsi (List.replicate 3 (some (7:ℚ))) 14).getD 2 none = some 50) :=
  ⟨⟨by decide, by decide, claim_C6.1 [some 1, some 3] 14 1 (by decide) (by decide)⟩,
   ⟨by decide, by decide, claim_C6.2 3 7 14 2 (by decide) (by decide)⟩⟩

/-! ## Aligned arithmetic access -/

theorem opt2_none_none (f : ℚ → ℚ → ℚ) : opt2 f none none = none := rfl

theorem zipOpt2_getD (f : ℚ → ℚ → ℚ) (a b : Series) (h : a.length = b.length) (i : ℕ) :
    (zipOpt2 f a b).getD i none = opt2 f (a.getD i none) (b.getD i none) := by
  by_cases hi : i < a.length
  · exact getD_zipWith_of_lt _ _ _ hi (h ▸ hi) _ none none
  · have h1 : a.length ≤ i := Nat.le_of_not_lt hi
    rw [List.getD_eq_default _ _ (by simp only [zipOpt2, List.length_zipWith]; omega),
      List.getD_eq_default _ _ h1, List.getD_eq_default _ _ (by omega)]
    rfl

theorem length_calculate_ema (xs : Series) (s : ℕ) :
    (calculate_ema xs s).length = xs.length := length_ewmMean xs s

/-- Claim C9: the MACD line is the pointwise difference of the fast and
slow EMA, the signal line is the EMA (span `signal`) of the MACD line, and
the histogram is the pointwise difference of MACD line and signal line. -/
theorem claim_C9 (xs : Series) (fast slow signal : ℕ) (i : ℕ) :
    ((calculate_macd xs fast slow signal).macd.getD i none
      = opt2 (fun a b => a - b) ((calculate_ema xs fast).getD i none)
          ((calculate_ema xs slow).getD i none)) ∧
    ((calculate_macd xs fast slow signal).macd_signal
      = ewmMean (calculate_macd xs fast slow signal).macd signal) ∧
    ((calculate_macd xs fast slow signal).macd_histogram.getD i none
      = opt2 (fun a b => a - b) ((calculate_macd xs fast slow signal).macd.getD i none)
          ((calculate_macd xs fast slow signal).macd_signal.getD i none)) := by
  refine ⟨?_, rfl, ?_⟩
  · exact zipOpt2_getD _ _ _ (by rw [length_calculate_ema, length_calculate_ema]) i
  · exact zipOpt2_getD _ _ _ (length_ewmMean _ signal).symm i

/-! ## Bollinger bands -/

theorem varSampOpt_isSome_iff (l : Series) :
    (varSampOpt l).isSome = true ↔ 2 ≤ (someVals l).length := by
  by_cases h : (someVals l).length ≤ 1 <;> simp [varSampOpt, h] <;> omega

theorem meanOpt_isSome_of_varSampOpt {l : Series} (h : (varSampOpt l).isSome = true) :
    (meanOpt l).isSome = true := by
  have h2 := (varSampOpt_isSome_iff l).mp h
  have hne : someVals l ≠ [] := by
    intro hc
    rw [hc] at h2
    simp at h2
  simp [meanOpt, hne]

theorem length_bb_middle (sqrtFn : ℚ → ℚ) (xs : Series) (w : ℕ) (k : ℚ) :
    (calculate_bollinger_bands sqrtFn xs w k).bb_middle.length = xs.length :=
  length_rollingMean xs w

/-- Claim C5 says the rolling standard deviation is defined from index 0
onward like the SMA.  It is not: the sample standard deviation (ddof = 1)
needs two observations, so at index 0 it is NaN while the SMA is defined,
and the Bollinger upper band at index 0 is NaN as well. -/
theorem claim_C5_counterexample :
    (calculate_sma [some (1:ℚ), some 2] 20).getD 0 none = some 1 ∧
    (rollingVarSamp [some (1:ℚ), some 2] 20).getD 0 none = none ∧
    (calculate_bollinger_bands (fun q => q) [some (1:ℚ), some 2] 20 2).bb_upper.getD 0 none
      = none := by
  refine ⟨?_, ?_, ?_⟩
  · norm_num [calculate_sma, rollingMean, window, meanOpt, someVals, List.range_succ,
      List.filterMap_cons]
    try simp
  · norm_num [rollingVarSamp, window, varSampOpt, someVals, List.range_succ,
      List.filterMap_cons]
    try simp
  · norm_num [calculate_bollinger_bands, calculate_sma, rollingStd, rollingVarSamp,
      rollingMean, window, varSampOpt, meanOpt, someVals, zipOpt2, opt2, List.range_succ,
      List.filterMap_cons]
    try simp

/-- Claim C5 (amended): at every index, `bb_width = bb_upper - bb_lower`
and `bb_upper - bb_lower = 2 K · std` hold with NaN propagation, where the
rolling standard deviation is `sqrtFn` of the rolling sample variance; but
the standard deviation follows the two-observation (ddof = 1) warm-up, so
on fully defined input it is defined exactly from index 1 onward for
windows of size at least 2, not from index 0. -/
theorem claim_C5_amended (sqrtFn : ℚ → ℚ) (xs : Series) (w : ℕ) (k : ℚ) (i : ℕ) :
    ((calculate_bollinger_bands sqrtFn xs w k).bb_width.getD i none
      = opt2 (fun a b => a - b)
          ((calculate_bollinger_bands sqrtFn xs w k).bb_upper.getD i none)
          ((calculate_bollinger_bands sqrtFn xs w k).bb_lower.getD i none)) ∧
    (opt2 (fun a b => a - b)
        ((calculate_bollinger_bands sqrtFn xs w k).bb_upper.getD i none)
        ((calculate_bollinger_bands sqrtFn xs w k).bb_lower.getD i none)
      = ((rollingVarSamp xs w).getD i none).map (fun v => 2 * k * sqrtFn v)) ∧
    ((∀ x ∈ xs, x ≠ none) → i < xs.length →
      ((((rollingVarSamp xs w).getD i none).isSome = true) ↔ (1 ≤ i ∧ 2 ≤ w))) := by
  have lmid : (calculate_sma xs w).length = xs.length := length_rollingMean xs w
  have lvar : (rollingVarSamp xs w).length = xs.length := length_rollingVarSamp xs w
  have lsdk : ((rollingStd sqrtFn xs w).map (Option.map (fun s => s * k))).length
      = xs.length := by
    simp [rollingStd, lvar]
  have lup : (zipOpt2 (fun a b => a + b) (calculate_sma xs w)
      ((rollingStd sqrtFn xs w).map (Option.map (fun s => s * k)))).length = xs.length := by
    simp only [zipOpt2, List.length_zipWith, lmid, lsdk]
    omega
  have llo : (zipOpt2 (fun a b => a - b) (calculate_sma xs w)
      ((rollingStd sqrtFn xs w).map (Option.map (fun s => s * k)))).length = xs.length := by
    simp only [zipOpt2, List.length_zipWith, lmid, lsdk]
    omega
  refine ⟨zipOpt2_getD _ _ _ (by rw [lup, llo]) i, ?_, ?_⟩
  · by_cases hi : i < xs.length
    · have hup := zipOpt2_getD (fun a b => a + b) (calculate_sma xs w)
        ((rollingStd sqrtFn xs w).map (Option.map (fun s => s * k))) (by rw [lmid, lsdk]) i
      have hlo := zipOpt2_getD (fun a b => a - b) (calculate_sma xs w)
        ((rollingStd sqrtFn xs w).map (Option.map (fun s => s * k))) (by rw [lmid, lsdk]) i
      have hsdk : ((rollingStd sqrtFn xs w).map (Option.map (fun s => s * k))).getD i none
          = Option.map (fun s => s * k)
              (Option.map sqrtFn ((rollingVarSamp xs w).getD i none)) := by
        rw [getD_map_of_lt _ _ (by rw [rollingStd, List.length_map, lvar]; exact hi) _ none,
          rollingStd, getD_map_of_lt _ _ (by rw [lvar]; exact hi) _ none]
      show opt2 (fun a b => a - b)
          ((zipOpt2 (fun a b => a + b) (calculate_sma xs w) _).getD i none)
          ((zipOpt2 (fun a b => a - b) (calculate_sma xs w) _).getD i none) = _
      rw [hup, hlo, hsdk]
      cases hvv : (rollingVarSamp xs w).getD i none with
      | none => cases (calculate_sma xs w).getD i none <;> rfl
      | some v =>
          have hmean : ∃ m, (calculate_sma xs w).getD i none = some m := by
            have h1 : (varSampOpt (window xs w i)).isSome = true := by
              rw [← rollingVarSamp_getD xs w hi, hvv]
              rfl
            have h2 := meanOpt_isSome_of_varSampOpt h1
            have h3 : (calculate_sma xs w).getD i none = meanOpt (window xs w i) :=
              rollingMean_getD xs w hi
            rw [h3]
            exact Option.isSome_iff_exists.mp h2
          obtain ⟨m, hm⟩ := hmean
          rw [hm]
          show some ((m + sqrtFn v * k) - (m - sqrtFn v * k)) = some (2 * k * sqrtFn v)
          ring_nf
    · have hge : xs.length ≤ i := Nat.le_of_not_lt hi
      rw [List.getD_eq_default _ _ (by omega : (rollingVarSamp xs w).length ≤ i)]
      have e1 : (zipOpt2 (fun a b => a + b) (calculate_sma xs w)
          ((rollingStd sqrtFn xs w).map (Option.map (fun s => s * k)))).getD i none = none :=
        List.getD_eq_default _ _ (by omega)
      have e2 : (zipOpt2 (fun a b => a - b) (calculate_sma xs w)
          ((rollingStd sqrtFn xs w).map (Option.map (fun s => s * k)))).getD i none = none :=
        List.getD_eq_default _ _ (by omega)
      show opt2 (fun a b => a - b)
          ((zipOpt2 (fun a b => a + b) (calculate_sma xs w) _).getD i none)
          ((zipOpt2 (fun a b => a - b) (calculate_sma xs w) _).getD i none) = _
      rw [e1, e2]
      rfl
  · intro hall hi
    rw [rollingVarSamp_getD xs w hi, varSampOpt_isSome_iff,
      length_someVals_all (fun x hx => hall x ((window_sublist xs w i).subset hx)),
      window_length xs w hi]
    omega

/-- Witness for the amended C5 at input `[1, 2, 3]`, window 20, K = 2,
index 1 (all hypotheses hold there). -/
theorem claim_C5_amended_witness :
    (∀ x ∈ ([some (1:ℚ), some 2, some 3] : Series), x ≠ none) ∧
    1 < ([some (1:ℚ), some 2, some 3] : Series).length ∧
    (((calculate_bollinger_bands (fun q => q) [some (1:ℚ), some 2, some 3] 20 2).bb_width.getD
        1 none
      = opt2 (fun a b => a - b)
          ((calculate_bollinger_bands (fun q => q) [some (1:ℚ), some 2, some 3] 20
            2).bb_upper.getD 1 none)
          ((calculate_bollinger_bands (fun q => q) [some (1:ℚ), some 2, some 3] 20
            2).bb_lower.getD 1 none)) ∧
    (opt2 (fun a b => a - b)
        ((calculate_bollinger_bands (fun q => q) [some (1:ℚ), some 2, some 3] 20
          2).bb_upper.getD 1 none)
        ((calculate_bollinger_bands (fun q => q) [some (1:ℚ), some 2, some 3] 20
          2).bb_lower.getD 1 none)
      = ((rollingVarSamp [some (1:ℚ), some 2, some 3] 20).getD 1 none).map
          (fun v => 2 * 2 * ((fun q => q) v))) ∧
    ((∀ x ∈ ([some (1:ℚ), some 2, some 3] : Series), x ≠ none) →
      1 < ([some (1:ℚ), some 2, some 3] : Series).length →
      ((((rollingVarSamp [some (1:ℚ), some 2, some 3] 20).getD 1 none).isSome = true)
        ↔ (1 ≤ 1 ∧ 2 ≤ 20)))) :=
  ⟨by decide, by decide, claim_C5_amended (fun q => q) [some 1, some 2, some 3] 20 2 1⟩

/-! ## Table access lemmas -/

theorem ts_setCol (t : Table) (n : String) (v : Series) : (t.setCol n v).ts = t.ts := by
  rw [Table.setCol]
  split <;> rfl

theorem ts_appendCols (t : Table) (l : List (String × Series)) :
    (t.appendCols l).ts = t.ts := rfl

theorem hasCol_iff_find? (t : Table) (n : String) :
    t.hasCol n = true ↔ (t.cols.find? (fun c => c.1 == n)).isSome = true := by
  rw [Table.hasCol, List.any_eq_true, List.find?_isSome]

theorem getCol_eq_none_of_not_hasCol {t : Table} {n : String} (h : t.hasCol n = false) :
    t.getCol n = none := by
  rw [Table.getCol]
  have h2 : t.cols.find? (fun c => c.1 == n) = none := by
    rw [List.find?_eq_none]
    intro x hx hb
    have h3 : t.cols.any (fun c => c.1 == n) = true := List.any_eq_true.mpr ⟨x, hx, hb⟩
    rw [Table.hasCol, h3] at h
    cases h
  rw [h2]
  rfl

theorem setCol_of_not_hasCol {t : Table} {n : String} (h : t.hasCol n = false) (v : Series) :
    t.setCol n v = t.appendCols [(n, v)] := by
  rw [Table.setCol, if_neg (by simp [h])]
  rfl

theorem find?_replace (cols : List (String × Series)) (n : String) (v : Series)
    (h : cols.any (fun c => c.1 == n) = true) :
    (cols.map (fun c => if c.1 == n then (n, v) else c)).find? (fun c => c.1 == n)
      = some (n, v) := by
  induction cols with
  | nil => cases h
  | cons c rest ih =>
      rcases Bool.eq_false_or_eq_true (c.1 == n) with hc | hc
      · rw [List.map_cons, if_pos hc, List.find?_cons_of_pos _ (by simp)]
      · have hrest : rest.any (fun c => c.1 == n) = true := by
          rw [List.any_cons, hc, Bool.false_or] at h
          exact h
        rw [List.map_cons, if_neg (by simp [hc]), List.find?_cons_of_neg _ (by simp [hc])]
        exact ih hrest

theorem getCol_setCol_self (t : Table) (n : String) (v : Series) :
    (t.setCol n v).getCol n = some v := by
  rw [Table.setCol]
  by_cases h : t.hasCol n = true
  · rw [if_pos h, Table.getCol]
    rw [Table.hasCol] at h
    show ((t.cols.map (fun c => if c.1 == n then (n, v) else c)).find?
      (fun c => c.1 == n)).map Prod.snd = some v
    rw [find?_replace t.cols n v h]
    rfl
  · rw [if_neg h, Table.getCol]
    show ((t.cols ++ [(n, v)]).find? (fun c => c.1 == n)).map Prod.snd = some v
    rw [List.find?_append, List.find?_eq_none.mpr, Option.none_or]
    · rw [List.find?_cons_of_pos _ (by simp)]
      rfl
    · intro x hx hb
      rw [Table.hasCol] at h
      exact h (List.any_eq_true.mpr ⟨x, hx, hb⟩)

theorem getCol_setCol_other (t : Table) {n m : String} (v : Series) (hnm : m ≠ n) :
    (t.setCol n v).getCol m = t.getCol m := by
  have hb : ((n : String) == m) = false := beq_false_of_ne (Ne.symm hnm)
  rw [Table.setCol]
  by_cases h : t.hasCol n = true
  · rw [if_pos h, Table.getCol, Table.getCol]
    have key : (t.cols.map (fun c => if c.1 == n then (n, v) else c)).find?
        (fun c => c.1 == m) = t.cols.find? (fun c => c.1 == m) := by
      induction t.cols with
      | nil => rfl
      | cons c rest ih =>
          rcases Bool.eq_false_or_eq_true (c.1 == n) with hc | hc
          · have hcm : (c.1 == m) = false := by
              rw [eq_of_beq hc]
              exact hb
            rw [List.map_cons, if_pos hc, List.find?_cons_of_neg _ (by simp [hb]),
              List.find?_cons_of_neg _ (by simp [hcm])]
            exact ih
          · rcases Bool.eq_false_or_eq_true (c.1 == m) with hcm | hcm
            · rw [List.map_cons, if_neg (by simp [hc]), List.find?_cons_of_pos _ (by exact hcm),
                List.find?_cons_of_pos _ (by exact hcm)]
            · rw [List.map_cons, if_neg (by simp [hc]), List.find?_cons_of_neg _ (by simp [hcm]),
                List.find?_cons_of_neg _ (by simp [hcm])]
              exact ih
    rw [key]
  · rw [if_neg h, Table.getCol, Table.getCol]
    show ((t.cols ++ [(n, v)]).find? (fun c => c.1 == m)).map Prod.snd
      = (t.cols.find? (fun c => c.1 == m)).map Prod.snd
    rw [List.find?_append,
      show ([((n, v) : String × Series)].find? (fun c => c.1 == m)) = none by
        rw [List.find?_cons_of_neg _ (by simp [hb])]
        rfl,
      Option.or_none]

theorem hasCol_setCol (t : Table) (n m : String) (v : Series) :
    (t.setCol n v).hasCol m = (t.hasCol m || m == n) := by
  rw [Table.setCol]
  by_cases h : t.hasCol n = true
  · rw [if_pos h]
    show (t.cols.map (fun c => if c.1 == n then (n, v) else c)).any (fun c => c.1 == m)
      = (t.hasCol m || m == n)
    by_cases hmn : m = n
    · subst hmn
      rw [h, Bool.true_or]
      rw [Table.hasCol] at h
      obtain ⟨c, hc, hcb⟩ := List.any_eq_true.mp h
      exact List.any_eq_true.mpr ⟨(m, v), List.mem_map.mpr ⟨c, hc, by rw [if_pos hcb]⟩,
        beq_self_eq_true m⟩
    · have e : ∀ c : String × Series,
          ((if c.1 == n then (n, v) else c).1 == m) = (c.1 == m) := by
        intro c
        rcases Bool.eq_false_or_eq_true (c.1 == n) with hc | hc
        · rw [if_pos hc, eq_of_beq hc]
        · rw [if_neg (by simp [hc])]
      rw [Table.hasCol, beq_false_of_ne hmn, Bool.or_false]
      induction t.cols with
      | nil => rfl
      | cons c rest ih =>
          rw [List.map_cons, List.any_cons, List.any_cons, e c, ih]
  · rw [if_neg h]
    show (t.cols ++ [(n, v)]).any (fun c => c.1 == m) = (t.hasCol m || m == n)
    rw [List.any_append, Table.hasCol]
    have e2 : ([((n, v) : String × Series)].any (fun c => c.1 == m)) = (m == n) := by
      rw [List.any_cons, List.any_nil, Bool.or_false]
      show (n == m) = (m == n)
      by_cases hmn : m = n
      · subst hmn
        rfl
      · rw [beq_false_of_ne hmn, beq_false_of_ne (Ne.symm hmn)]
    rw [e2]

theorem hasCol_appendCols (t : Table) (l : List (String × Series)) (n : String) :
    (t.appendCols l).hasCol n = (t.hasCol n || l.any (fun c => c.1 == n)) := by
  rw [Table.hasCol, Table.hasCol]
  exact List.any_append

theorem getCol_appendCols_left {t : Table} {n : String} (l : List (String × Series))
    (h : t.hasCol n = true) : (t.appendCols l).getCol n = t.getCol n := by
  rw [Table.getCol, Table.getCol]
  show ((t.cols ++ l).find? (fun c => c.1 == n)).map Prod.snd = _
  rw [List.find?_append]
  obtain ⟨x, hx⟩ := Option.isSome_iff_exists.mp ((hasCol_iff_find? t n).mp h)
  rw [hx]
  rfl

/-! ## Lag stage lemmas -/

theorem add_lag_features_eq_foldl (df : Table) (columns : List String) (lags : List Nat) :
    add_lag_features df columns lags
      = columns.foldl (fun t col => if t.hasCol col then lagFold lags col t else t) df := rfl

theorem lagFold_getCol_other (lags : List Nat) (col : String) (t : Table) (n : String)
    (h : ∀ l ∈ lags, lagColName col l ≠ n) :
    (lagFold lags col t).getCol n = t.getCol n := by
  induction lags generalizing t with
  | nil => rfl
  | cons l0 rest ih =>
      rw [lagFold, List.foldl_cons]
      rw [show (List.foldl (fun t2 lag => t2.setCol (lagColName col lag)
          (shiftList (t2.colD col) lag)) (t.setCol (lagColName col l0)
            (shiftList (t.colD col) l0)) rest)
          = lagFold rest col (t.setCol (lagColName col l0) (shiftList (t.colD col) l0))
        from rfl]
      rw [ih _ (fun l hl => h l (by simp [hl]))]
      exact getCol_setCol_other _ _ (fun he => h l0 (by simp) he.symm)

theorem lagFold_hasCol_other (lags : List Nat) (col : String) (t : Table) (n : String)
    (h : ∀ l ∈ lags, lagColName col l ≠ n) :
    (lagFold lags col t).hasCol n = t.hasCol n := by
  induction lags generalizing t with
  | nil => rfl
  | cons l0 rest ih =>
      rw [lagFold, List.foldl_cons]
      rw [show (List.foldl (fun t2 lag => t2.setCol (lagColName col lag)
          (shiftList (t2.colD col) lag)) (t.setCol (lagColName col l0)
            (shiftList (t.colD col) l0)) rest)
          = lagFold rest col (t.setCol (lagColName col l0) (shiftList (t.colD col) l0))
        from rfl]
      rw [ih _ (fun l hl => h l (by simp [hl])), hasCol_setCol,
        beq_false_of_ne (fun he => h l0 (by simp) he.symm), Bool.or_false]

theorem lagFold_hasCol_mono (lags : List Nat) (col : String) (t : Table) (n : String)
    (h : t.hasCol n = true) : (lagFold lags col t).hasCol n = true := by
  induction lags generalizing t with
  | nil => exact h
  | cons l0 rest ih =>
      rw [lagFold, List.foldl_cons]
      rw [show (List.foldl (fun t2 lag => t2.setCol (lagColName col lag)
          (shiftList (t2.colD col) lag)) (t.setCol (lagColName col l0)
            (shiftList (t.colD col) l0)) rest)
          = lagFold rest col (t.setCol (lagColName col l0) (shiftList (t.colD col) l0))
        from rfl]
      exact ih _ (by rw [hasCol_setCol, h, Bool.true_or])

theorem lagFold_getCol_new (lags : List Nat) (col : String) (t : Table) (lag : Nat)
    (hmem : lag ∈ lags) (hcol : t.hasCol col = true)
    (hfresh : ∀ l ∈ lags, t.hasCol (lagColName col l) = false)
    (hnocol : ∀ l ∈ lags, lagColName col l ≠ col)
    (hdist : lags.Pairwise (fun a b => lagColName col a ≠ lagColName col b)) :
    (lagFold lags col t).getCol (lagColName col lag)
      = some (shiftList (t.colD col) lag) := by
  induction lags generalizing t with
  | nil => cases hmem
  | cons l0 rest ih =>
      rw [lagFold, List.foldl_cons]
      rw [show (List.foldl (fun t2 lag => t2.setCol (lagColName col lag)
          (shiftList (t2.colD col) lag)) (t.setCol (lagColName col l0)
            (shiftList (t.colD col) l0)) rest)
          = lagFold rest col (t.setCol (lagColName col l0) (shiftList (t.colD col) l0))
        from rfl]
      have hd0 := List.pairwise_cons.mp hdist
      rcases List.mem_cons.mp hmem with heq | hmem2
      · subst heq
        rw [lagFold_getCol_other rest col _ _ (fun l hl => (hd0.1 l hl).symm)]
        exact getCol_setCol_self _ _ _
      · have hne0 : col ≠ lagColName col l0 := fun he => hnocol l0 (by simp) he.symm
        have e1 : (t.setCol (lagColName col l0) (shiftList (t.colD col) l0)).colD col
            = t.colD col := by
          rw [Table.colD, getCol_setCol_other _ _ hne0, Table.colD]
        rw [ih _ hmem2
          (by rw [hasCol_setCol, hcol, Bool.true_or])
          (fun l hl => by
            rw [hasCol_setCol, hfresh l (by simp [hl]),
              beq_false_of_ne (fun he => (hd0.1 l hl) he.symm), Bool.or_false])
          (fun l hl => hnocol l (by simp [hl]))
          hd0.2, e1]

theorem add_lag_features_getCol_other (columns : List String) (lags : List Nat) (t : Table)
    (n : String) (h : ∀ c ∈ columns, ∀ l ∈ lags, lagColName c l ≠ n) :
    (add_lag_features t columns lags).getCol n = t.getCol n := by
  induction columns generalizing t with
  | nil => rfl
  | cons c0 rest ih =>
      rw [add_lag_features_eq_foldl, List.foldl_cons]
      rw [show (rest.foldl (fun t col => if t.hasCol col then lagFold lags col t else t)
          (if t.hasCol c0 then lagFold lags c0 t else t))
          = add_lag_features (if t.hasCol c0 then lagFold lags c0 t else t) rest lags
        from rfl]
      rw [ih _ (fun c hc l hl => h c (by simp [hc]) l hl)]
      by_cases hc0 : t.hasCol c0 = true
      · rw [if_pos hc0, lagFold_getCol_other _ _ _ _ (fun l hl => h c0 (by simp) l hl)]
      · rw [if_neg hc0]

theorem add_lag_features_getCol_new (lags : List Nat) (col : String) (lag : Nat)
    (hlnd : lags.Nodup) (hlagmem : lag ∈ lags) :
    ∀ (columns : List String) (df : Table), col ∈ columns → df.hasCol col = true →
    (∀ c ∈ columns, ∀ l ∈ lags, df.hasCol (lagColName c l) = false) →
    (∀ c ∈ columns, ∀ l ∈ lags, ∀ c2 ∈ columns, ∀ l2 ∈ lags,
      lagColName c l = lagColName c2 l2 → c = c2 ∧ l = l2) →
    (∀ c ∈ columns, ∀ c2 ∈ columns, ∀ l ∈ lags, lagColName c2 l ≠ c) →
    columns.Nodup →
    (add_lag_features df columns lags).getCol (lagColName col lag)
      = some (shiftList (df.colD col) lag) := by
  intro columns
  induction columns with
  | nil => intro df hmem; cases hmem
  | cons c0 rest ih =>
      intro df hcolmem hpres hfresh hinj hnsrc hcnd
      rw [add_lag_features_eq_foldl, List.foldl_cons]
      rw [show (rest.foldl (fun t col => if t.hasCol col then lagFold lags col t else t)
          (if df.hasCol c0 then lagFold lags c0 df else df))
          = add_lag_features (if df.hasCol c0 then lagFold lags c0 df else df) rest lags
        from rfl]
      have hc0nd := List.nodup_cons.mp hcnd
      rcases List.mem_cons.mp hcolmem with heq | hmem2
      · subst heq
        rw [if_pos hpres]
        rw [add_lag_features_getCol_other rest lags _ _ (fun c hc l hl he => by
          have h2 := hinj c (by simp [hc]) l hl col (by simp) lag hlagmem he
          exact hc0nd.1 (h2.1 ▸ hc))]
        refine lagFold_getCol_new lags col df lag hlagmem hpres
          (fun l hl => hfresh col (by simp) l hl)
          (fun l hl => hnsrc col (by simp) col (by simp) l hl) ?_
        refine List.Pairwise.imp_of_mem ?_ hlnd
        intro a b ha hb hne he
        exact hne (hinj col (by simp) a ha col (by simp) b hb he).2
      · have hcolne : col ≠ c0 := fun he => hc0nd.1 (he ▸ hmem2)
        have hmemc : col ∈ c0 :: rest := hcolmem
        by_cases hc0 : df.hasCol c0 = true
        · rw [if_pos hc0]
          have hpres1 : (lagFold lags c0 df).hasCol col = true :=
            lagFold_hasCol_mono _ _ _ _ hpres
          have hfresh1 : ∀ c ∈ rest, ∀ l ∈ lags,
              (lagFold lags c0 df).hasCol (lagColName c l) = false := by
            intro c hc l hl
            rw [lagFold_hasCol_other _ _ _ _ (fun l2 hl2 he => by
              have h2 := hinj c0 (by simp) l2 hl2 c (by simp [hc]) l hl he
              exact hc0nd.1 (h2.1 ▸ hc))]
            exact hfresh c (by simp [hc]) l hl
          have hcolD1 : (lagFold lags c0 df).colD col = df.colD col := by
            rw [Table.colD, Table.colD,
              lagFold_getCol_other _ _ _ _ (fun l hl => hnsrc col hmemc c0 (by simp) l hl)]
          rw [ih _ hmem2 hpres1 hfresh1
            (fun c hc l hl c2 hc2 l2 hl2 => hinj c (by simp [hc]) l hl c2 (by simp [hc2]) l2 hl2)
            (fun c hc c2 hc2 l hl => hnsrc c (by simp [hc]) c2 (by simp [hc2]) l hl)
            hc0nd.2, hcolD1]
        · rw [if_neg hc0]
          exact ih _ hmem2 hpres
            (fun c hc l hl => hfresh c (by simp [hc]) l hl)
            (fun c hc l hl c2 hc2 l2 hl2 => hinj c (by simp [hc]) l hl c2 (by simp [hc2]) l2 hl2)
            (fun c hc c2 hc2 l hl => hnsrc c (by simp [hc]) c2 (by simp [hc2]) l hl)
            hc0nd.2

theorem shiftList_getD (xs : Series) (k i : ℕ) (hi : i < xs.length) :
    (shiftList xs k).getD i none = if i < k then none else xs.getD (i - k) none := by
  show ((List.replicate k (none : Option ℚ) ++ xs).take xs.length).getD i none = _
  rw [List.getD_eq_getElem?_getD, List.getElem?_take, if_pos hi, List.getElem?_append,
    List.length_replicate]
  by_cases hik : i < k
  · rw [if_pos hik, List.getElem?_replicate, if_pos hik, if_pos hik]
    rfl
  · rw [if_neg hik, if_neg hik, List.getD_eq_getElem?_getD]

/-- Claim C8: for every configured (column, lag) pair with the column
present and under the input contract (generated lag names fresh, pairwise
distinct, and distinct from the source columns), the lag stage appends a
column that is the source shifted by `lag` (`output[i] = source[i-lag]` for
`i ≥ lag`, missing for `i < lag`), and leaves every pre-existing column
unchanged. -/
theorem claim_C8 (df : Table) (columns : List String) (lags : List Nat) (col : String)
    (lag : Nat) (i : ℕ)
    (hcolmem : col ∈ columns) (hlagmem : lag ∈ lags) (hpres : df.hasCol col = true)
    (hfresh : ∀ c ∈ columns, ∀ l ∈ lags, df.hasCol (lagColName c l) = false)
    (hinj : ∀ c ∈ columns, ∀ l ∈ lags, ∀ c2 ∈ columns, ∀ l2 ∈ lags,
      lagColName c l = lagColName c2 l2 → c = c2 ∧ l = l2)
    (hnsrc : ∀ c ∈ columns, ∀ c2 ∈ columns, ∀ l ∈ lags, lagColName c2 l ≠ c)
    (hcnd : columns.Nodup) (hlnd : lags.Nodup)
    (hi : i < (df.colD col).length) :
    ((add_lag_features df columns lags).getCol (lagColName col lag)
        = some (shiftList (df.colD col) lag)) ∧
    ((shiftList (df.colD col) lag).getD i none
        = if i < lag then none else (df.colD col).getD (i - lag) none) ∧
    (∀ n, df.hasCol n = true →
      (add_lag_features df columns lags).getCol n = df.getCol n) := by
  refine ⟨add_lag_features_getCol_new lags col lag hlnd hlagmem columns df hcolmem hpres
      hfresh hinj hnsrc hcnd,
    shiftList_getD _ _ _ hi, ?_⟩
  intro n hn
  refine add_lag_features_getCol_other columns lags df n ?_
  intro c hc l hl he
  have h2 := hfresh c hc l hl
  rw [he, hn] at h2
  cases h2

/-- Witness for C8: a three-row table with a price column, default-style
configuration restricted to one column and one lag. -/
theorem claim_C8_witness :
    (("price_usd" : String) ∈ ["price_usd"] ∧ (1 : ℕ) ∈ [1] ∧
      (Table.mk [⟨2024, 1, 1, 0⟩, ⟨2024, 1, 2, 0⟩, ⟨2024, 1, 3, 0⟩]
        [("price_usd", [some 1, some 2, some 3])]).hasCol "price_usd" = true) ∧
    ((add_lag_features
        (Table.mk [⟨2024, 1, 1, 0⟩, ⟨2024, 1, 2, 0⟩, ⟨2024, 1, 3, 0⟩]
          [("price_usd", [some 1, some 2, some 3])]) ["price_usd"] [1]).getCol
        (lagColName "price_usd" 1)
      = some (shiftList ((Table.mk [⟨2024, 1, 1, 0⟩, ⟨2024, 1, 2, 0⟩, ⟨2024, 1, 3, 0⟩]
          [("price_usd", [some 1, some 2, some 3])]).colD "price_usd") 1)) ∧
    ((shiftList ((Table.mk [⟨2024, 1, 1, 0⟩, ⟨2024, 1, 2, 0⟩, ⟨2024, 1, 3, 0⟩]
          [("price_usd", [some 1, some 2, some 3])]).colD "price_usd") 1).getD 1 none
      = if 1 < 1 then none
        else ((Table.mk [⟨2024, 1, 1, 0⟩, ⟨2024, 1, 2, 0⟩, ⟨2024, 1, 3, 0⟩]
          [("price_usd", [some 1, some 2, some 3])]).colD "price_usd").getD (1 - 1) none) ∧
    (∀ n, (Table.mk [⟨2024, 1, 1, 0⟩, ⟨2024, 1, 2, 0⟩, ⟨2024, 1, 3, 0⟩]
        [("price_usd", [some 1, some 2, some 3])]).hasCol n = true →
      (add_lag_features
        (Table.mk [⟨2024, 1, 1, 0⟩, ⟨2024, 1, 2, 0⟩, ⟨2024, 1, 3, 0⟩]
          [("price_usd", [some 1, some 2, some 3])]) ["price_usd"] [1]).getCol n
        = (Table.mk [⟨2024, 1, 1, 0⟩, ⟨2024, 1, 2, 0⟩, ⟨2024, 1, 3, 0⟩]
          [("price_usd", [some 1, some 2, some 3])]).getCol n) := by
  have h := claim_C8
    (Table.mk [⟨2024, 1, 1, 0⟩, ⟨2024, 1, 2, 0⟩, ⟨2024, 1, 3, 0⟩]
      [("price_usd", [some 1, some 2, some 3])]) ["price_usd"] [1] "price_usd" 1 1
    (by decide) (by decide) (by decide) (by decide) (by decide) (by decide)
    (by decide) (by decide) (by decide)
  exact ⟨⟨by decide, by decide, by decide⟩, h.1, h.2.1, h.2.2⟩

/-! ## Forward fill -/

theorem getLast?_cons_or {α : Type} (v : α) (X : List α) :
    (v :: X).getLast? = X.getLast?.or (some v) := by
  cases X with
  | nil => rfl
  | cons y ys =>
      rw [List.getLast?_cons_cons]
      obtain ⟨u, hu⟩ := Option.isSome_iff_exists.mp (show ((y :: ys).getLast?).isSome = true by simp)
      rw [hu]
      rfl

theorem ffillAux_getD (l : Series) : ∀ (acc : Option ℚ) (i : ℕ), i < l.length →
    (ffillAux acc l).getD i none = (((l.take (i+1)).filterMap id).getLast?).or acc := by
  induction l with
  | nil =>
      intro acc i h
      cases h
  | cons x rest ih =>
      intro acc i hi
      cases x with
      | some v =>
          cases i with
          | zero =>
              rw [ffillAux, List.getD_cons_zero, List.take_succ_cons, List.take_zero,
                List.filterMap_cons]
              rfl
          | succ j =>
              rw [ffillAux, List.getD_cons_succ,
                ih (some v) j (by simpa using Nat.lt_of_succ_lt_succ hi),
                List.take_succ_cons, List.filterMap_cons]
              show _ = ((v :: (rest.take (j+1)).filterMap id).getLast?).or acc
              rw [getLast?_cons_or, Option.or_assoc]
              rfl
      | none =>
          cases i with
          | zero =>
              rw [ffillAux, List.getD_cons_zero, List.take_succ_cons, List.take_zero,
                List.filterMap_cons]
              rfl
          | succ j =>
              rw [ffillAux, List.getD_cons_succ,
                ih acc j (by simpa using Nat.lt_of_succ_lt_succ hi),
                List.take_succ_cons, List.filterMap_cons]
              rfl

/-- The forward-filled column at `i` is the most recent non-missing entry
among positions `0..i` of the joined column. -/
theorem ffill_getD (l : Series) (i : ℕ) (hi : i < l.length) :
    (ffill l).getD i none = ((l.take (i+1)).filterMap id).getLast? := by
  rw [ffill, ffillAux_getD l none i hi, Option.or_none]

/-! ## Sentiment stage columns -/

theorem length_sentimentMerged (dates : List Date) (fg : FGTable) :
    (sentimentMerged dates fg).length = dates.length := by
  simp [sentimentMerged]

theorem sentimentMerged_getD (dates : List Date) (fg : FGTable) (i : ℕ) (hi : i < dates.length)
    (d0 : Date) :
    (sentimentMerged dates fg).getD i none
      = (fg.find? (fun r => dateOf r.1 == dates.getD i d0)).map Prod.snd := by
  rw [sentimentMerged, getD_map_of_lt _ dates hi none d0]

theorem sentiment_getCol (df : Table) (fg : FGTable) :
    ((add_sentiment_features df fg).getCol "fear_greed_index"
      = some (ffill (sentimentMerged (df.ts.map dateOf) fg))) ∧
    ((add_sentiment_features df fg).getCol "is_extreme_fear"
      = some ((ffill (sentimentMerged (df.ts.map dateOf) fg)).map
          (fun o => some (if optLeC o 25 then (1:ℚ) else 0)))) ∧
    ((add_sentiment_features df fg).getCol "is_fear"
      = some ((ffill (sentimentMerged (df.ts.map dateOf) fg)).map
          (fun o => some (if optGtC o 25 && optLeC o 45 then (1:ℚ) else 0)))) ∧
    ((add_sentiment_features df fg).getCol "is_neutral"
      = some ((ffill (sentimentMerged (df.ts.map dateOf) fg)).map
          (fun o => some (if optGtC o 45 && optLeC o 55 then (1:ℚ) else 0)))) ∧
    ((add_sentiment_features df fg).getCol "is_greed"
      = some ((ffill (sentimentMerged (df.ts.map dateOf) fg)).map
          (fun o => some (if optGtC o 55 && optLeC o 75 then (1:ℚ) else 0)))) ∧
    ((add_sentiment_features df fg).getCol "is_extreme_greed"
      = some ((ffill (sentimentMerged (df.ts.map dateOf) fg)).map
          (fun o => some (if optGtC o 75 then (1:ℚ) else 0)))) := by
  simp only [add_sentiment_features]
  refine ⟨?_, ?_, ?_, ?_, ?_, ?_⟩
  · rw [getCol_setCol_other _ _ (by decide), getCol_setCol_other _ _ (by decide),
      getCol_setCol_other _ _ (by decide), getCol_setCol_other _ _ (by decide),
      getCol_setCol_other _ _ (by decide), getCol_setCol_other _ _ (by decide),
      getCol_setCol_other _ _ (by decide), getCol_setCol_other _ _ (by decide),
      getCol_setCol_self]
  · rw [getCol_setCol_other _ _ (by decide), getCol_setCol_other _ _ (by decide),
      getCol_setCol_other _ _ (by decide), getCol_setCol_other _ _ (by decide),
      getCol_setCol_self]
  · rw [getCol_setCol_other _ _ (by decide), getCol_setCol_other _ _ (by decide),
      getCol_setCol_other _ _ (by decide), getCol_setCol_self]
  · rw [getCol_setCol_other _ _ (by decide), getCol_setCol_other _ _ (by decide),
      getCol_setCol_self]
  · rw [getCol_setCol_other _ _ (by decide), getCol_setCol_self]
  · rw [getCol_setCol_self]

/-- Claim C1 says the joined sentiment value is the most recent sentiment
value dated at or before each row's date.  The code joins on exact
calendar-date equality and then forward-fills along rows, so a sentiment
entry whose date lies between two price dates is never picked up: with
price rows dated Jan 1 and Jan 3 and sentiment {Jan 1: 80, Jan 2: 20},
the output at the Jan 3 row is 80, while the most recent value at or
before Jan 3 is 20. -/
theorem claim_C1_counterexample :
    List.Chain' (fun a b => dateLe a b = true)
      ((Table.mk [⟨2024, 1, 1, 0⟩, ⟨2024, 1, 3, 0⟩]
        [("price_usd", [some 100, some 101])]).ts.map dateOf) ∧
    (([((⟨2024, 1, 1, 0⟩ : Timestamp), (80 : ℚ)), (⟨2024, 1, 2, 0⟩, 20)] : FGTable).map
      (fun r => dateOf r.1)).Nodup ∧
    ((add_sentiment_features
        (Table.mk [⟨2024, 1, 1, 0⟩, ⟨2024, 1, 3, 0⟩] [("price_usd", [some 100, some 101])])
        [((⟨2024, 1, 1, 0⟩ : Timestamp), (80 : ℚ)), (⟨2024, 1, 2, 0⟩, 20)]).getCol
          "fear_greed_index"
      = some [some 80, some 80]) ∧
    mostRecentValueAtOrBefore
      [((⟨2024, 1, 1, 0⟩ : Timestamp), (80 : ℚ)), (⟨2024, 1, 2, 0⟩, 20)]
      (dateOf ⟨2024, 1, 3, 0⟩) = some 20 ∧
    some (80 : ℚ) ≠ some 20 := by
  refine ⟨by simp [List.chain'_cons, dateLe, dateOf], by decide, ?_, by decide, by decide⟩
  rw [(sentiment_getCol _ _).1]
  decide

/-- Claim C1 (amended): the joined column matches on exact calendar date
(first matching sentiment row), and after forward-filling each row's
`fear_greed_index` is the value of the most recent row at or before it
whose date has an exact match in the sentiment table — missing when no row
up to it matched. -/
theorem claim_C1_amended (df : Table) (fg : FGTable)
    (hsorted : List.Chain' (fun a b => dateLe a b = true) (df.ts.map dateOf))
    (hnodup : (fg.map (fun r => dateOf r.1)).Nodup)
    (i : ℕ) (hi : i < df.ts.length) :
    ∃ fgi, (add_sentiment_features df fg).getCol "fear_greed_index" = some fgi ∧
      (∀ j, j < df.ts.length →
        (sentimentMerged (df.ts.map dateOf) fg).getD j none
          = (fg.find? (fun r => dateOf r.1 == (df.ts.map dateOf).getD j ⟨0, 0, 0⟩)).map
              Prod.snd) ∧
      fgi.getD i none
        = (((sentimentMerged (df.ts.map dateOf) fg).take (i+1)).filterMap id).getLast? := by
  refine ⟨_, (sentiment_getCol df fg).1,
    fun j hj => sentimentMerged_getD _ _ j (by simpa using hj) _, ?_⟩
  exact ffill_getD _ i (by rw [length_sentimentMerged, List.length_map]; exact hi)

/-- Witness for the amended C1: two price rows dated Jan 1 and Jan 2 and
one sentiment row dated Jan 1 (sorted, duplicate-free input). -/
theorem claim_C1_amended_witness :
    (List.Chain' (fun a b => dateLe a b = true)
      ((Table.mk [⟨2024, 1, 1, 0⟩, ⟨2024, 1, 2, 0⟩]
        [("price_usd", [some 100, some 101])]).ts.map dateOf) ∧
    (([((⟨2024, 1, 1, 0⟩ : Timestamp), (60 : ℚ))] : FGTable).map (fun r => dateOf r.1)).Nodup ∧
    1 < (Table.mk [⟨2024, 1, 1, 0⟩, ⟨2024, 1, 2, 0⟩]
        [("price_usd", [some 100, some 101])]).ts.length) ∧
    (∃ fgi, (add_sentiment_features
        (Table.mk [⟨2024, 1, 1, 0⟩, ⟨2024, 1, 2, 0⟩] [("price_usd", [some 100, some 101])])
        [((⟨2024, 1, 1, 0⟩ : Timestamp), (60 : ℚ))]).getCol "fear_greed_index" = some fgi ∧
      (∀ j, j < (Table.mk [⟨2024, 1, 1, 0⟩, ⟨2024, 1, 2, 0⟩]
          [("price_usd", [some 100, some 101])]).ts.length →
        (sentimentMerged ((Table.mk [⟨2024, 1, 1, 0⟩, ⟨2024, 1, 2, 0⟩]
            [("price_usd", [some 100, some 101])]).ts.map dateOf)
            [((⟨2024, 1, 1, 0⟩ : Timestamp), (60 : ℚ))]).getD j none
          = (([((⟨2024, 1, 1, 0⟩ : Timestamp), (60 : ℚ))] : FGTable).find?
              (fun r => dateOf r.1 == ((Table.mk [⟨2024, 1, 1, 0⟩, ⟨2024, 1, 2, 0⟩]
                [("price_usd", [some 100, some 101])]).ts.map dateOf).getD j
                  ⟨0, 0, 0⟩)).map Prod.snd) ∧
      fgi.getD 1 none
        = (((sentimentMerged ((Table.mk [⟨2024, 1, 1, 0⟩, ⟨2024, 1, 2, 0⟩]
            [("price_usd", [some 100, some 101])]).ts.map dateOf)
            [((⟨2024, 1, 1, 0⟩ : Timestamp), (60 : ℚ))]).take 2).filterMap id).getLast?) :=
  ⟨⟨by simp [List.chain'_cons, dateLe, dateOf], by decide, by decide⟩,
    claim_C1_amended
      (Table.mk [⟨2024, 1, 1, 0⟩, ⟨2024, 1, 2, 0⟩] [("price_usd", [some 100, some 101])])
      [((⟨2024, 1, 1, 0⟩ : Timestamp), (60 : ℚ))]
      (by simp [List.chain'_cons, dateLe, dateOf]) (by decide) 1 (by decide)⟩

/-- Claim C10: after the sentiment stage, whenever `fear_greed_index` is
present at a row exactly one of the five bucket flags is 1 and the other
four are 0, and whenever it is missing all five flags are 0; the flags
themselves are never missing. -/
theorem claim_C10 (df : Table) (fg : FGTable) (i : ℕ) (hi : i < df.ts.length) :
    ∃ fgi fef ff fn fgr feg,
      (add_sentiment_features df fg).getCol "fear_greed_index" = some fgi ∧
      (add_sentiment_features df fg).getCol "is_extreme_fear" = some fef ∧
      (add_sentiment_features df fg).getCol "is_fear" = some ff ∧
      (add_sentiment_features df fg).getCol "is_neutral" = some fn ∧
      (add_sentiment_features df fg).getCol "is_greed" = some fgr ∧
      (add_sentiment_features df fg).getCol "is_extreme_greed" = some feg ∧
      ∃ e1 e2 e3 e4 e5 : ℚ,
        fef.getD i none = some e1 ∧ ff.getD i none = some e2 ∧ fn.getD i none = some e3 ∧
        fgr.getD i none = some e4 ∧ feg.getD i none = some e5 ∧
        (∀ v, fgi.getD i none = some v →
          (e1 = 1 ∧ e2 = 0 ∧ e3 = 0 ∧ e4 = 0 ∧ e5 = 0) ∨
          (e1 = 0 ∧ e2 = 1 ∧ e3 = 0 ∧ e4 = 0 ∧ e5 = 0) ∨
          (e1 = 0 ∧ e2 = 0 ∧ e3 = 1 ∧ e4 = 0 ∧ e5 = 0) ∨
          (e1 = 0 ∧ e2 = 0 ∧ e3 = 0 ∧ e4 = 1 ∧ e5 = 0) ∨
          (e1 = 0 ∧ e2 = 0 ∧ e3 = 0 ∧ e4 = 0 ∧ e5 = 1)) ∧
        (fgi.getD i none = none → e1 = 0 ∧ e2 = 0 ∧ e3 = 0 ∧ e4 = 0 ∧ e5 = 0) := by
  obtain ⟨h0, h1c, h2c, h3c, h4c, h5c⟩ := sentiment_getCol df fg
  have hMl : i < (ffill (sentimentMerged (df.ts.map dateOf) fg)).length := by
    rw [length_ffill, length_sentimentMerged, List.length_map]
    exact hi
  refine ⟨_, _, _, _, _, _, h0, h1c, h2c, h3c, h4c, h5c, _, _, _, _, _,
    getD_map_of_lt _ _ hMl none none, getD_map_of_lt _ _ hMl none none,
    getD_map_of_lt _ _ hMl none none, getD_map_of_lt _ _ hMl none none,
    getD_map_of_lt _ _ hMl none none, ?_, ?_⟩
  · intro v hv
    rw [hv]
    rcases le_or_lt v 25 with hA | hA
    · have n1 : ¬(25:ℚ) < v := not_lt.mpr hA
      have n2 : ¬(45:ℚ) < v := by intro h; linarith
      have n3 : ¬(55:ℚ) < v := by intro h; linarith
      have n4 : ¬(75:ℚ) < v := by intro h; linarith
      exact Or.inl (by simp [optLeC, optGtC, hA, n1, n2, n3, n4])
    · rcases le_or_lt v 45 with hB | hB
      · have nA : ¬v ≤ 25 := not_le.mpr hA
        have n3 : ¬(55:ℚ) < v := by intro h; linarith
        have n4 : ¬(75:ℚ) < v := by intro h; linarith
        have n2 : ¬(45:ℚ) < v := not_lt.mpr hB
        exact Or.inr (Or.inl (by simp [optLeC, optGtC, hA, hB, nA, n2, n3, n4]))
      · rcases le_or_lt v 55 with hC | hC
        · have nA : ¬v ≤ 25 := by intro h; linarith
          have nB : ¬v ≤ 45 := not_le.mpr hB
          have n3 : ¬(55:ℚ) < v := not_lt.mpr hC
          have n4 : ¬(75:ℚ) < v := by intro h; linarith
          exact Or.inr (Or.inr (Or.inl (by
            simp [optLeC, optGtC, hA, hB, hC, nA, nB, n3, n4])))
        · rcases le_or_lt v 75 with hD | hD
          · have nA : ¬v ≤ 25 := by intro h; linarith
            have nB : ¬v ≤ 45 := by intro h; linarith
            have nC : ¬v ≤ 55 := not_le.mpr hC
            have n4 : ¬(75:ℚ) < v := not_lt.mpr hD
            exact Or.inr (Or.inr (Or.inr (Or.inl (by
              simp [optLeC, optGtC, hA, hB, hC, hD, nA, nB, nC, n4]))))
          · have nA : ¬v ≤ 25 := by intro h; linarith
            have nB : ¬v ≤ 45 := by intro h; linarith
            have nC : ¬v ≤ 55 := by intro h; linarith
            have nD : ¬v ≤ 75 := not_le.mpr hD
            exact Or.inr (Or.inr (Or.inr (Or.inr (by
              simp [optLeC, optGtC, hA, hB, hC, hD, nA, nB, nC, nD]))))
  · intro hv
    rw [hv]
    simp [optLeC, optGtC]

/-- Witness for C10 at a one-row table whose date matches the single
sentiment row (value 60, the neutral bucket). -/
theorem claim_C10_witness :
    0 < (Table.mk [⟨2024, 1, 1, 0⟩] [("price_usd", [some 100])]).ts.length ∧
    (∃ fgi fef ff fn fgr feg,
      (add_sentiment_features (Table.mk [⟨2024, 1, 1, 0⟩] [("price_usd", [some 100])])
        [((⟨2024, 1, 1, 0⟩ : Timestamp), (60 : ℚ))]).getCol "fear_greed_index" = some fgi ∧
      (add_sentiment_features (Table.mk [⟨2024, 1, 1, 0⟩] [("price_usd", [some 100])])
        [((⟨2024, 1, 1, 0⟩ : Timestamp), (60 : ℚ))]).getCol "is_extreme_fear" = some fef ∧
      (add_sentiment_features (Table.mk [⟨2024, 1, 1, 0⟩] [("price_usd", [some 100])])
        [((⟨2024, 1, 1, 0⟩ : Timestamp), (60 : ℚ))]).getCol "is_fear" = some ff ∧
      (add_sentiment_features (Table.mk [⟨2024, 1, 1, 0⟩] [("price_usd", [some 100])])
        [((⟨2024, 1, 1, 0⟩ : Timestamp), (60 : ℚ))]).getCol "is_neutral" = some fn ∧
      (add_sentiment_features (Table.mk [⟨2024, 1, 1, 0⟩] [("price_usd", [some 100])])
        [((⟨2024, 1, 1, 0⟩ : Timestamp), (60 : ℚ))]).getCol "is_greed" = some fgr ∧
      (add_sentiment_features (Table.mk [⟨2024, 1, 1, 0⟩] [("price_usd", [some 100])])
        [((⟨2024, 1, 1, 0⟩ : Timestamp), (60 : ℚ))]).getCol "is_extreme_greed" = some feg ∧
      ∃ e1 e2 e3 e4 e5 : ℚ,
        fef.getD 0 none = some e1 ∧ ff.getD 0 none = some e2 ∧ fn.getD 0 none = some e3 ∧
        fgr.getD 0 none = some e4 ∧ feg.getD 0 none = some e5 ∧
        (∀ v, fgi.getD 0 none = some v →
          (e1 = 1 ∧ e2 = 0 ∧ e3 = 0 ∧ e4 = 0 ∧ e5 = 0) ∨
          (e1 = 0 ∧ e2 = 1 ∧ e3 = 0 ∧ e4 = 0 ∧ e5 = 0) ∨
          (e1 = 0 ∧ e2 = 0 ∧ e3 = 1 ∧ e4 = 0 ∧ e5 = 0) ∨
          (e1 = 0 ∧ e2 = 0 ∧ e3 = 0 ∧ e4 = 1 ∧ e5 = 0) ∨
          (e1 = 0 ∧ e2 = 0 ∧ e3 = 0 ∧ e4 = 0 ∧ e5 = 1)) ∧
        (fgi.getD 0 none = none → e1 = 0 ∧ e2 = 0 ∧ e3 = 0 ∧ e4 = 0 ∧ e5 = 0)) :=
  ⟨by decide,
    claim_C10 (Table.mk [⟨2024, 1, 1, 0⟩] [("price_usd", [some 100])])
      [((⟨2024, 1, 1, 0⟩ : Timestamp), (60 : ℚ))] 0 (by decide)⟩

/-! ## Stage normalisation: under the input contract (no input column uses a
generated feature name) every stage is an append of a block of new columns. -/

theorem appendCols_appendCols (t : Table) (l1 l2 : List (String × Series)) :
    (t.appendCols l1).appendCols l2 = t.appendCols (l1 ++ l2) := by
  rw [Table.appendCols, Table.appendCols, Table.appendCols, List.append_assoc]

theorem getCol_appendCols_right {t : Table} {n : String} (l : List (String × Series))
    (h : t.hasCol n = false) :
    (t.appendCols l).getCol n = (l.find? (fun c => c.1 == n)).map Prod.snd := by
  rw [Table.getCol]
  show ((t.cols ++ l).find? (fun c => c.1 == n)).map Prod.snd = _
  rw [List.find?_append, List.find?_eq_none.mpr, Option.none_or]
  intro x hx hb
  rw [Table.hasCol] at h
  have h2 : t.cols.any (fun c => c.1 == n) = true := List.any_eq_true.mpr ⟨x, hx, hb⟩
  rw [h2] at h
  cases h

theorem add_temporal_features_eq (df : Table)
    (hfresh : ∀ n ∈ temporalColNames, df.hasCol n = false) :
    add_temporal_features df = df.appendCols (temporalBlock df.ts) := by
  have f1 : df.hasCol "year" = false := hfresh _ (by decide)
  have f2 : df.hasCol "month" = false := hfresh _ (by decide)
  have f3 : df.hasCol "day" = false := hfresh _ (by decide)
  have f4 : df.hasCol "day_of_week" = false := hfresh _ (by decide)
  have f5 : df.hasCol "hour" = false := hfresh _ (by decide)
  have f6 : df.hasCol "quarter" = false := hfresh _ (by decide)
  have f7 : df.hasCol "is_weekend" = false := hfresh _ (by decide)
  have f8 : df.hasCol "is_month_start" = false := hfresh _ (by decide)
  have f9 : df.hasCol "is_month_end" = false := hfresh _ (by decide)
  simp [add_temporal_features, temporalBlock, setCol_of_not_hasCol, appendCols_appendCols,
    hasCol_appendCols, f1, f2, f3, f4, f5, f6, f7, f8, f9]

theorem calculate_price_changes_eq (price : Series) :
    calculate_price_changes price [1, 7, 30]
      = [("price_change_1d", (pctChange price 1).map (Option.map (fun q => q * 100))),
         ("price_change_7d", (pctChange price 7).map (Option.map (fun q => q * 100))),
         ("price_change_30d", (pctChange price 30).map (Option.map (fun q => q * 100)))] := rfl

theorem add_technical_indicators_eq (sqrtFn : ℚ → ℚ) (df : Table)
    (hfresh : ∀ n ∈ techColNames, df.hasCol n = false) :
    add_technical_indicators sqrtFn df
      = df.appendCols
          (techBlock sqrtFn (df.colD "price_usd") (df.colD "volume_24h_usd")
            (df.hasCol "volume_24h_usd")) := by
  have f1 : df.hasCol "sma_7" = false := hfresh _ (by decide)
  have f2 : df.hasCol "sma_30" = false := hfresh _ (by decide)
  have f3 : df.hasCol "ema_12" = false := hfresh _ (by decide)
  have f4 : df.hasCol "ema_26" = false := hfresh _ (by decide)
  have f5 : df.hasCol "rsi_14" = false := hfresh _ (by decide)
  have f21 : df.hasCol "price_to_sma7_ratio" = false := hfresh _ (by decide)
  have f22 : df.hasCol "price_to_sma30_ratio" = false := hfresh _ (by decide)
  have f23 : df.hasCol "sma_crossover" = false := hfresh _ (by decide)
  by_cases hvol : df.hasCol "volume_24h_usd" = true
  · simp [add_technical_indicators, techBlock, hvol, calculate_price_changes_eq,
      calculate_volume_indicators, setCol_of_not_hasCol, appendCols_appendCols,
      hasCol_appendCols, f1, f2, f3, f4, f5, f21, f22, f23]
  · have hvol2 : df.hasCol "volume_24h_usd" = false := by
      rcases Bool.eq_false_or_eq_true (df.hasCol "volume_24h_usd") with h | h
      · exact absurd h hvol
      · exact h
    simp [add_technical_indicators, techBlock, hvol2, calculate_price_changes_eq,
      calculate_volume_indicators, setCol_of_not_hasCol, appendCols_appendCols,
      hasCol_appendCols, f1, f2, f3, f4, f5, f21, f22, f23]

theorem add_sentiment_features_eq (df : Table) (fg : FGTable)
    (hfresh : ∀ n ∈ sentColNames, df.hasCol n = false) :
    add_sentiment_features df fg
      = df.appendCols (sentBlock (ffill (sentimentMerged (df.ts.map dateOf) fg))) := by
  have f1 : df.hasCol "fear_greed_index" = false := hfresh _ (by decide)
  have f2 : df.hasCol "fg_ma_7" = false := hfresh _ (by decide)
  have f3 : df.hasCol "fg_ma_30" = false := hfresh _ (by decide)
  have f4 : df.hasCol "fg_change_7d" = false := hfresh _ (by decide)
  have f5 : df.hasCol "is_extreme_fear" = false := hfresh _ (by decide)
  have f6 : df.hasCol "is_fear" = false := hfresh _ (by decide)
  have f7 : df.hasCol "is_neutral" = false := hfresh _ (by decide)
  have f8 : df.hasCol "is_greed" = false := hfresh _ (by decide)
  have f9 : df.hasCol "is_extreme_greed" = false := hfresh _ (by decide)
  simp [add_sentiment_features, sentBlock, setCol_of_not_hasCol, appendCols_appendCols,
    hasCol_appendCols, f1, f2, f3, f4, f5, f6, f7, f8, f9]

/-! ## Row/column preservation plumbing -/

theorem length_zipOpt2 (f : ℚ → ℚ → ℚ) (a b : Series) :
    (zipOpt2 f a b).length = min a.length b.length := by
  simp [zipOpt2, List.length_zipWith]

theorem hasCol_of_getCol_some {t : Table} {n : String} {v : Series}
    (h : t.getCol n = some v) : t.hasCol n = true := by
  rw [hasCol_iff_find?]
  rw [Table.getCol] at h
  cases hf : t.cols.find? (fun c => c.1 == n) with
  | none => rw [hf] at h; cases h
  | some c => rfl

theorem colD_length_of_wf {t : Table} {n : String} (hwf : t.Wf) (h : t.hasCol n = true) :
    (t.colD n).length = t.ts.length := by
  obtain ⟨c, hc⟩ := Option.isSome_iff_exists.mp ((hasCol_iff_find? t n).mp h)
  have hmem : c ∈ t.cols := List.mem_of_find?_eq_some hc
  rw [Table.colD, Table.getCol, hc]
  exact hwf c hmem

theorem strictlyExtends_appendCols (t : Table) (l : List (String × Series)) (hwf : t.Wf)
    (hlen : ∀ c ∈ l, c.2.length = t.ts.length)
    (hex : ∃ n, l.any (fun c => c.1 == n) = true ∧ t.hasCol n = false) :
    StrictlyExtends t (t.appendCols l) := by
  obtain ⟨n0, hn0a, hn0f⟩ := hex
  refine ⟨rfl, fun n hn => getCol_appendCols_left l hn,
    fun n hn => by rw [hasCol_appendCols, hn, Bool.true_or],
    ⟨n0, by rw [hasCol_appendCols, hn0f, Bool.false_or]; exact hn0a, hn0f⟩, ?_⟩
  intro c hc
  rw [ts_appendCols]
  rcases List.mem_append.mp hc with hc2 | hc2
  · exact hwf c hc2
  · exact hlen c hc2

theorem temporalBlock_lengths (t : List Timestamp) :
    ∀ c ∈ temporalBlock t, c.2.length = t.length := by
  intro c hc
  simp only [temporalBlock, List.mem_cons, List.not_mem_nil, or_false] at hc
  rcases hc with rfl | rfl | rfl | rfl | rfl | rfl | rfl | rfl | rfl <;> simp

theorem sentBlock_lengths (fgi : Series) (N : ℕ) (hf : fgi.length = N) :
    ∀ c ∈ sentBlock fgi, c.2.length = N := by
  intro c hc
  simp only [sentBlock, List.mem_cons, List.not_mem_nil, or_false] at hc
  rcases hc with rfl | rfl | rfl | rfl | rfl | rfl | rfl | rfl | rfl <;>
    simp [length_rollingMean, length_diffP, hf]

theorem techBlock_lengths (sqrtFn : ℚ → ℚ) (price vol : Series) (hv : Bool) (N : ℕ)
    (hp : price.length = N) (hvlen : hv = true → vol.length = N) :
    ∀ c ∈ techBlock sqrtFn price vol hv, c.2.length = N := by
  intro c hc
  rcases Bool.eq_false_or_eq_true hv with hhv | hhv
  · subst hhv
    simp only [techBlock, calculate_price_changes_eq, calculate_volume_indicators,
      if_pos, List.mem_append, List.mem_cons, List.not_mem_nil, or_false, or_assoc] at hc
    rcases hc with rfl | rfl | rfl | rfl | rfl | rfl | rfl | rfl | rfl | rfl | rfl | rfl |
      rfl | rfl | rfl | rfl | rfl | rfl | rfl | rfl | rfl | rfl | rfl <;>
      simp [calculate_sma, calculate_ema, calculate_macd, calculate_bollinger_bands,
        rollingStd, length_rollingMean, length_ewmMean, length_calculate_rsi,
        length_pctChange, length_zipOpt2, length_rollingVarSamp, length_fillna,
        length_diffP, List.length_zipWith, hp, hvlen rfl]
  · subst hhv
    simp only [techBlock, calculate_price_changes_eq, if_neg, Bool.false_eq_true,
      not_false_iff, List.append_nil, List.nil_append, List.mem_append, List.mem_cons,
      List.not_mem_nil, or_false, or_assoc] at hc
    rcases hc with rfl | rfl | rfl | rfl | rfl | rfl | rfl | rfl | rfl | rfl | rfl | rfl |
      rfl | rfl | rfl | rfl | rfl | rfl <;>
      simp [calculate_sma, calculate_ema, calculate_macd, calculate_bollinger_bands,
        rollingStd, length_rollingMean, length_ewmMean, length_calculate_rsi,
        length_pctChange, length_zipOpt2, length_rollingVarSamp, length_fillna,
        length_diffP, List.length_zipWith, hp]

theorem ts_lagFold (lags : List Nat) (col : String) (t : Table) :
    (lagFold lags col t).ts = t.ts := by
  induction lags generalizing t with
  | nil => rfl
  | cons l0 rest ih =>
      rw [lagFold, List.foldl_cons]
      rw [show (List.foldl (fun t2 lag => t2.setCol (lagColName col lag)
          (shiftList (t2.colD col) lag)) (t.setCol (lagColName col l0)
            (shiftList (t.colD col) l0)) rest)
          = lagFold rest col (t.setCol (lagColName col l0) (shiftList (t.colD col) l0))
        from rfl]
      rw [ih, ts_setCol]

theorem ts_add_lag_features (df : Table) (columns : List String) (lags : List Nat) :
    (add_lag_features df columns lags).ts = df.ts := by
  induction columns generalizing df with
  | nil => rfl
  | cons c0 rest ih =>
      rw [add_lag_features_eq_foldl, List.foldl_cons]
      rw [show (rest.foldl (fun t col => if t.hasCol col then lagFold lags col t else t)
          (if df.hasCol c0 then lagFold lags c0 df else df))
          = add_lag_features (if df.hasCol c0 then lagFold lags c0 df else df) rest lags
        from rfl]
      rw [ih]
      by_cases hc0 : df.hasCol c0 = true
      · rw [if_pos hc0, ts_lagFold]
      · rw [if_neg hc0]

theorem wf_setCol {t : Table} {n : String} {v : Series} (hwf : t.Wf)
    (hlen : v.length = t.ts.length) : (t.setCol n v).Wf := by
  intro c hc
  rw [ts_setCol]
  rw [Table.setCol] at hc
  by_cases h : t.hasCol n = true
  · rw [if_pos h] at hc
    obtain ⟨c0, hc0, rfl⟩ := List.mem_map.mp hc
    rcases Bool.eq_false_or_eq_true (c0.1 == n) with hb | hb
    · rw [if_pos hb]
      exact hlen
    · rw [if_neg (by simp [hb])]
      exact hwf c0 hc0
  · rw [if_neg h] at hc
    rcases List.mem_append.mp hc with hc2 | hc2
    · exact hwf c hc2
    · rcases List.mem_cons.mp hc2 with rfl | hc3
      · exact hlen
      · cases hc3

theorem wf_lagFold (lags : List Nat) (col : String) (t : Table) (hwf : t.Wf)
    (hcol : t.hasCol col = true) : (lagFold lags col t).Wf := by
  induction lags generalizing t with
  | nil => exact hwf
  | cons l0 rest ih =>
      rw [lagFold, List.foldl_cons]
      rw [show (List.foldl (fun t2 lag => t2.setCol (lagColName col lag)
          (shiftList (t2.colD col) lag)) (t.setCol (lagColName col l0)
            (shiftList (t.colD col) l0)) rest)
          = lagFold rest col (t.setCol (lagColName col l0) (shiftList (t.colD col) l0))
        from rfl]
      exact ih _ (wf_setCol hwf (by rw [length_shiftList, colD_length_of_wf hwf hcol]))
        (by rw [hasCol_setCol, hcol, Bool.true_or])

theorem wf_add_lag_features (df : Table) (columns : List String) (lags : List Nat)
    (hwf : df.Wf) : (add_lag_features df columns lags).Wf := by
  induction columns generalizing df with
  | nil => exact hwf
  | cons c0 rest ih =>
      rw [add_lag_features_eq_foldl, List.foldl_cons]
      rw [show (rest.foldl (fun t col => if t.hasCol col then lagFold lags col t else t)
          (if df.hasCol c0 then lagFold lags c0 df else df))
          = add_lag_features (if df.hasCol c0 then lagFold lags c0 df else df) rest lags
        from rfl]
      by_cases hc0 : df.hasCol c0 = true
      · rw [if_pos hc0]
        exact ih _ (wf_lagFold lags c0 df hwf hc0)
      · rw [if_neg hc0]
        exact ih _ hwf

theorem hasCol_add_lag_mono (columns : List String) (lags : List Nat) (t : Table)
    (n : String) (h : t.hasCol n = true) :
    (add_lag_features t columns lags).hasCol n = true := by
  induction columns generalizing t with
  | nil => exact h
  | cons c0 rest ih =>
      rw [add_lag_features_eq_foldl, List.foldl_cons]
      rw [show (rest.foldl (fun t col => if t.hasCol col then lagFold lags col t else t)
          (if t.hasCol c0 then lagFold lags c0 t else t))
          = add_lag_features (if t.hasCol c0 then lagFold lags c0 t else t) rest lags
        from rfl]
      by_cases hc0 : t.hasCol c0 = true
      · rw [if_pos hc0]
        exact ih _ (lagFold_hasCol_mono lags c0 t n h)
      · rw [if_neg hc0]
        exact ih _ h

/-- Claim C3: each of the four assembler stages, on any table satisfying
its input contract (well-formed, required columns present, no input column
named like a generated feature, sentiment dates unique, lag configuration
well-formed), keeps the rows unchanged and in order, keeps every
pre-existing column and its values, and strictly extends the column set
with equally long new columns. -/
theorem claim_C3 (sqrtFn : ℚ → ℚ) :
    (∀ df : Table, df.Wf → df.hasCol "price_usd" = true →
      (∀ n ∈ techColNames, df.hasCol n = false) →
      StrictlyExtends df (add_technical_indicators sqrtFn df)) ∧
    (∀ df : Table, df.Wf → (∀ n ∈ temporalColNames, df.hasCol n = false) →
      StrictlyExtends df (add_temporal_features df)) ∧
    (∀ (df : Table) (fg : FGTable), df.Wf → (∀ n ∈ sentColNames, df.hasCol n = false) →
      (fg.map (fun r => dateOf r.1)).Nodup →
      StrictlyExtends df (add_sentiment_features df fg)) ∧
    (∀ (df : Table) (columns : List String) (lags : List Nat), df.Wf →
      columns ≠ [] → lags ≠ [] →
      (∀ c ∈ columns, df.hasCol c = true) →
      (∀ c ∈ columns, ∀ l ∈ lags, df.hasCol (lagColName c l) = false) →
      (∀ c ∈ columns, ∀ l ∈ lags, ∀ c2 ∈ columns, ∀ l2 ∈ lags,
        lagColName c l = lagColName c2 l2 → c = c2 ∧ l = l2) →
      (∀ c ∈ columns, ∀ c2 ∈ columns, ∀ l ∈ lags, lagColName c2 l ≠ c) →
      columns.Nodup → lags.Nodup →
      StrictlyExtends df (add_lag_features df columns lags)) := by
  refine ⟨?_, ?_, ?_, ?_⟩
  · intro df hwf hprice hfresh
    rw [add_technical_indicators_eq sqrtFn df hfresh]
    refine strictlyExtends_appendCols df _ hwf
      (techBlock_lengths sqrtFn _ _ _ df.ts.length (colD_length_of_wf hwf hprice)
        (fun hv => colD_length_of_wf hwf hv))
      ⟨"sma_7", by simp [techBlock], hfresh _ (by decide)⟩
  · intro df hwf hfresh
    rw [add_temporal_features_eq df hfresh]
    exact strictlyExtends_appendCols df _ hwf (temporalBlock_lengths df.ts)
      ⟨"year", by simp [temporalBlock], hfresh _ (by decide)⟩
  · intro df fg hwf hfresh hnodup
    rw [add_sentiment_features_eq df fg hfresh]
    refine strictlyExtends_appendCols df _ hwf
      (sentBlock_lengths _ df.ts.length
        (by rw [length_ffill, length_sentimentMerged, List.length_map]))
      ⟨"fear_greed_index", by simp [sentBlock], hfresh _ (by decide)⟩
  · intro df columns lags hwf hcne hlne hpres hfresh hinj hnsrc hcnd hlnd
    obtain ⟨c0, hc0⟩ := List.exists_mem_of_ne_nil columns hcne
    obtain ⟨l0, hl0⟩ := List.exists_mem_of_ne_nil lags hlne
    refine ⟨ts_add_lag_features df columns lags, ?_, ?_, ?_, ?_⟩
    · intro n hn
      refine add_lag_features_getCol_other columns lags df n ?_
      intro c hc l hl he
      have h2 := hfresh c hc l hl
      rw [he, hn] at h2
      cases h2
    · intro n hn
      exact hasCol_add_lag_mono columns lags df n hn
    · exact ⟨lagColName c0 l0,
        hasCol_of_getCol_some (add_lag_features_getCol_new lags c0 l0 hlnd hl0 columns df
          hc0 (hpres c0 hc0) hfresh hinj hnsrc hcnd),
        hfresh c0 hc0 l0 hl0⟩
    · rw [ts_add_lag_features]
      intro c hc
      rw [← ts_add_lag_features df columns lags]
      exact wf_add_lag_features df columns lags hwf c hc

theorem sampleTable_wf : sampleTable.Wf := by
  intro c hc
  simp only [sampleTable, List.mem_cons, List.not_mem_nil, or_false] at hc
  rcases hc with rfl | rfl <;> rfl

/-- Witness for C3: the four stages applied to the sample table. -/
theorem claim_C3_witness :
    (sampleTable.Wf ∧ sampleTable.hasCol "price_usd" = true ∧
      (sampleFG.map (fun r => dateOf r.1)).Nodup) ∧
    StrictlyExtends sampleTable (add_technical_indicators (fun q => q) sampleTable) ∧
    StrictlyExtends sampleTable (add_temporal_features sampleTable) ∧
    StrictlyExtends sampleTable (add_sentiment_features sampleTable sampleFG) ∧
    StrictlyExtends sampleTable (add_lag_features sampleTable ["price_usd"] [1]) :=
  ⟨⟨sampleTable_wf, by decide, by decide⟩,
    (claim_C3 (fun q => q)).1 sampleTable sampleTable_wf (by decide) (by decide),
    (claim_C3 (fun q => q)).2.1 sampleTable sampleTable_wf (by decide),
    (claim_C3 (fun q => q)).2.2.1 sampleTable sampleFG sampleTable_wf (by decide) (by decide),
    (claim_C3 (fun q => q)).2.2.2 sampleTable ["price_usd"] [1] sampleTable_wf (by decide)
      (by decide) (by decide) (by decide) (by decide) (by decide) (by decide) (by decide)⟩

theorem scenario_untrimmed_rows :
    (pipelineStages (fun q => q) scenarioTable none true).ts.length = 10 := by
  decide

theorem scenario_trimmed_rows :
    (create_all_features (fun q => q) scenarioTable none true).ts.length = 10 := by
  decide

theorem length_dropnaMask (t : Table) (s : List String) :
    (t.dropnaMask s).length = t.ts.length := by
  simp [Table.dropnaMask]

theorem filterByMask_eq {α : Type} (d : α) :
    ∀ (l : List α) (mask : List Bool), mask.length = l.length →
    filterByMask mask l
      = ((List.range l.length).filter (fun i => mask.getD i false)).map
          (fun i => l.getD i d) := by
  intro l
  induction l with
  | nil =>
      intro mask h
      rfl
  | cons x rest ih =>
      intro mask h
      cases mask with
      | nil =>
          rw [List.length_nil, List.length_cons] at h
          cases h
      | cons b mrest =>
          have h2 : mrest.length = rest.length := by
            rw [List.length_cons, List.length_cons] at h
            omega
          have step : filterByMask (b :: mrest) (x :: rest)
              = if b then x :: filterByMask mrest rest else filterByMask mrest rest := by
            rw [filterByMask, List.zip_cons_cons, List.filterMap_cons, filterByMask]
            cases b
            · rfl
            · rfl
          rw [step, List.length_cons, List.range_succ_eq_map, List.filter_cons]
          have hp0 : ((b :: mrest).getD 0 false) = b := List.getD_cons_zero
          rw [hp0, List.filter_map,
            List.filter_congr (fun i _ =>
              show ((fun i => (b :: mrest).getD i false) ∘ Nat.succ) i
                  = (fun i => mrest.getD i false) i from List.getD_cons_succ)]
          cases b
          · rw [if_neg (by simp), if_neg (by simp), ih mrest h2, List.map_map]
            apply List.map_congr_left
            intro i _
            show (x :: rest).getD (i + 1) d = rest.getD i d
            exact List.getD_cons_succ
          · rw [if_pos rfl, if_pos rfl, List.map_cons, ih mrest h2, List.map_map,
              List.getD_cons_zero]
            congr 1

theorem find?_map_snd (cols : List (String × Series)) (g : Series → Series) (name : String) :
    ((cols.map (fun c => (c.1, g c.2))).find? (fun c => c.1 == name)).map Prod.snd
      = ((cols.find? (fun c => c.1 == name)).map Prod.snd).map g := by
  induction cols with
  | nil => rfl
  | cons c rest ih =>
      rcases Bool.eq_false_or_eq_true (c.1 == name) with hc | hc
      · rw [List.map_cons, List.find?_cons_of_pos _ (by exact hc),
          List.find?_cons_of_pos _ (by exact hc)]
        rfl
      · rw [List.map_cons, List.find?_cons_of_neg _ (by simp [hc]),
          List.find?_cons_of_neg _ (by simp [hc])]
        exact ih

theorem getCol_dropnaRows (t : Table) (s : List String) (name : String) :
    (t.dropnaRows s).getCol name
      = (t.getCol name).map (filterByMask (t.dropnaMask s)) := by
  show ((t.cols.map (fun c => (c.1, filterByMask (t.dropnaMask s) c.2))).find?
      (fun c => c.1 == name)).map Prod.snd = _
  rw [find?_map_snd t.cols (filterByMask (t.dropnaMask s)) name]
  rfl

/-- Claim C7: the final trim keeps exactly the rows where all of
`price_usd`, `sma_7` and `rsi_14` are non-missing, in their original
order (the kept row indices are an increasing sub-range and every column
is filtered by the same row mask); the trim never errors; and the 10-point
scenario-1 series (no volume column) drops 0 of its 10 rows. -/
theorem claim_C7 (sqrtFn : ℚ → ℚ) (df : Table) (fg : Option FGTable) (al : Bool) :
    ((create_all_features sqrtFn df fg al).ts
      = ((List.range (pipelineStages sqrtFn df fg al).ts.length).filter (fun i =>
          (((pipelineStages sqrtFn df fg al).colD "price_usd").getD i none).isSome &&
          ((((pipelineStages sqrtFn df fg al).colD "sma_7").getD i none).isSome &&
            (((pipelineStages sqrtFn df fg al).colD "rsi_14").getD i none).isSome))).map
          (fun i => (pipelineStages sqrtFn df fg al).ts.getD i default)) ∧
    (∀ name, (create_all_features sqrtFn df fg al).getCol name
      = ((pipelineStages sqrtFn df fg al).getCol name).map
          (filterByMask ((pipelineStages sqrtFn df fg al).dropnaMask
            ["price_usd", "sma_7", "rsi_14"]))) ∧
    ((pipelineStages (fun q => q) scenarioTable none true).ts.length = 10 ∧
      (create_all_features (fun q => q) scenarioTable none true).ts.length = 10) := by
  refine ⟨?_, fun name => getCol_dropnaRows _ _ name,
    scenario_untrimmed_rows, scenario_trimmed_rows⟩
  show filterByMask
      ((pipelineStages sqrtFn df fg al).dropnaMask ["price_usd", "sma_7", "rsi_14"])
      (pipelineStages sqrtFn df fg al).ts = _
  rw [filterByMask_eq default _ _ (length_dropnaMask _ _)]
  refine congrArg _ (List.filter_congr ?_)
  intro i hi
  have hlt : i < (pipelineStages sqrtFn df fg al).ts.length := List.mem_range.mp hi
  simp [Table.dropnaMask, getD_map_range, hlt, List.all_cons, List.all_nil, Bool.and_true]
